import Mathlib

/-!
Verification of the p2p-quiz connection/delivery core (`src/lib/p2p.ts`,
`src/app/page.tsx`) against its natural-language specification.

The TypeScript code is shallowly embedded: JS `Map`s become insertion-ordered
association lists, JS `Set`s become insertion-ordered duplicate-free lists
(`addOnce`), and each method of the `MessageQueue` class becomes a pure state
transformer.  Message payloads are JSON strings in the source and are parsed
repeatedly; since a payload string never changes after construction, it is
embedded as its (immutable) parsed form `Msg`.  `quizId = none` models a
payload whose JSON parse fails (the source skips the answer-special-casing via
`catch` in that case); `messageId = none` models a payload without a
`messageId` field.  Environment nondeterminism (channel readiness,
`channel.send` throwing, `addIceCandidate` failing) is passed in as explicit
boolean parameters.
-/

namespace P2PQuiz

/-- Message kinds distinguished by the delivery engine (the `type` field of the
JSON envelope). Any kind other than the reserved ones is `other`. -/
inductive MType
  | answer
  | quiz
  | ack
  | heartbeat
  | other
deriving DecidableEq, Repr

/-- Parsed form of a payload string handed to `MessageQueue.enqueue`:
its kind, the `quizId` found inside an answer payload (when the payload
parses), and the caller-supplied `messageId` (when present). -/
structure Msg where
  mtype : MType
  quizId : Option String := none
  messageId : Option String := none
deriving DecidableEq, Repr

/-- One entry of the outbound queue (`QueuedMessage` in the source; the
`timestamp` field is write-only in the source and is omitted). -/
structure QueuedMessage where
  msg : Msg
  attempts : Nat
  maxAttempts : Nat
deriving DecidableEq, Repr

/-- A transmission on the data channel performed by the delivery engine:
the queue id of the entry and the message sent. -/
abbrev Send := String × Msg

/-- JS `Map.get`. -/
def mapGet {β : Type} (l : List (String × β)) (k : String) : Option β :=
  (l.find? (fun e => e.1 == k)).map (fun e => e.2)

/-- JS `Map.set`: replaces the value in place (keeping insertion order) when
the key is present, appends otherwise. -/
def mapSet {β : Type} (l : List (String × β)) (k : String) (v : β) :
    List (String × β) :=
  if l.any (fun e => e.1 == k) then
    l.map (fun e => if e.1 == k then (k, v) else e)
  else l ++ [(k, v)]

/-- JS `Map.delete`. -/
def mapDel {β : Type} (l : List (String × β)) (k : String) :
    List (String × β) :=
  l.filter (fun e => e.1 != k)

/-- JS `Set.add`: appends unless already present (an existing element keeps
its insertion position). -/
def addOnce (l : List String) (x : String) : List String :=
  if x ∈ l then l else l ++ [x]

/-- JS `Set.delete`. -/
def setDel (l : List String) (x : String) : List String :=
  l.filter (fun y => y != x)

/-- Does this queue entry hold an answer for quiz `q`? (the repeated
`JSON.parse` checks `type === 'answer'` / `payload.quizId === q`). -/
def isAnswerFor (q : String) (m : QueuedMessage) : Bool :=
  m.msg.mtype == MType.answer && m.msg.quizId == some q

namespace MessageQueue

/-- The private state of the `MessageQueue` class. -/
structure State where
  queue : List (String × QueuedMessage)
  pendingMessages : List String
  acknowledgedMessages : List String
  messageIdToQueueId : List (String × String)
  submittedAnswers : List String
  completedQuizzes : List String
deriving DecidableEq, Repr

/-- Fresh queue (constructor). -/
def State.init : State :=
  { queue := [], pendingMessages := [], acknowledgedMessages := [],
    messageIdToQueueId := [], submittedAnswers := [], completedQuizzes := [] }

/-- `acknowledge` resolves a caller-supplied id through the correlation map,
falling back to the id itself. -/
def resolveId (s : State) (id : String) : String :=
  (mapGet s.messageIdToQueueId id).getD id

/-- `MessageQueue.trySend(id)`.  `chOpen` is `channel.readyState === 'open'`;
`sendOk` is whether `channel.send` succeeds (it can throw).  Returns the new
state, the transmissions performed, and the boolean return value. -/
def trySend (s : State) (id : String) (chOpen sendOk : Bool) :
    State × List Send × Bool :=
  if id ∈ s.acknowledgedMessages then
    ({ s with queue := mapDel s.queue id }, [], true)
  else if !chOpen then
    (s, [], false)
  else
    match mapGet s.queue id with
    | none => (s, [], false)
    | some m =>
      if id ∈ s.pendingMessages then
        (s, [], false)
      else
        let answerBlocked : Bool :=
          match m.msg.mtype, m.msg.quizId with
          | MType.answer, some q =>
            decide (q ∈ s.completedQuizzes) || decide (0 < m.attempts)
          | _, _ => false
        if answerBlocked then
          ({ s with queue := mapDel s.queue id }, [], false)
        else if m.maxAttempts ≤ m.attempts then
          ({ s with queue := mapDel s.queue id }, [], false)
        else
          let m1 : QueuedMessage := { m with attempts := m.attempts + 1 }
          let s1 : State :=
            { s with queue := mapSet s.queue id m1,
                     pendingMessages := addOnce s.pendingMessages id }
          let s2 : State :=
            if m.msg.mtype == MType.ack then
              { s1 with pendingMessages := setDel s1.pendingMessages id,
                        queue := mapDel s1.queue id }
            else s1
          if sendOk then (s2, [(id, m.msg)], true)
          else ({ s2 with pendingMessages := setDel s2.pendingMessages id },
                [], false)

/-- The `setTimeout` ack-timeout handler installed by `trySend`.  `msg` is the
message captured by the closure at scheduling time.  The guard inside the
handler makes firing a stale timeout a no-op, so arbitrary timeout events can
be interleaved soundly. -/
def ackTimeout (s : State) (id : String) (msg : Msg) : State :=
  if id ∈ s.pendingMessages ∧ id ∉ s.acknowledgedMessages then
    let s1 : State := { s with pendingMessages := setDel s.pendingMessages id }
    match msg.mtype, msg.quizId with
    | MType.answer, some q =>
      { s1 with completedQuizzes := addOnce s1.completedQuizzes q,
                queue := mapDel s1.queue id }
    | _, _ => s1
  else s

/-- `MessageQueue.acknowledge(id)`. -/
def acknowledge (s : State) (id : String) : State :=
  let queueId := resolveId s id
  let s1 : State :=
    match mapGet s.queue queueId with
    | some m =>
      match m.msg.mtype, m.msg.quizId with
      | MType.answer, some q =>
        let purged := (s.queue.filter (fun e => isAnswerFor q e.2)).map
          (fun e => e.1)
        { s with completedQuizzes := addOnce s.completedQuizzes q,
                 queue := s.queue.filter (fun e => !(isAnswerFor q e.2)),
                 pendingMessages := s.pendingMessages.filter
                   (fun x => !(purged.contains x)) }
      | _, _ => s
    | none => s
  let s2 : State :=
    { s1 with pendingMessages := setDel s1.pendingMessages queueId,
              queue := mapDel s1.queue queueId }
  let acked1 := addOnce (addOnce s2.acknowledgedMessages id) queueId
  { s2 with acknowledgedMessages :=
      if 100 < acked1.length then acked1.drop 50 else acked1 }

/-- Second half of `MessageQueue.enqueue` (after the answer-deduplication
block): record the caller id in the correlation map, refuse an
already-acknowledged id, otherwise queue the message and attempt an
immediate send. -/
def enqueueRest (s1 : State) (m : Msg) (maxAttempts : Nat) (genId : String)
    (chOpen sendOk : Bool) : State × List Send × String :=
  match m.messageId with
  | some mid =>
    let s2 : State :=
      { s1 with messageIdToQueueId := mapSet s1.messageIdToQueueId mid genId }
    if mid ∈ s2.acknowledgedMessages then (s2, [], mid)
    else
      let s3 : State :=
        { s2 with queue :=
            mapSet s2.queue genId { msg := m, attempts := 0, maxAttempts } }
      let r := trySend s3 genId chOpen sendOk
      (r.1, r.2.1, genId)
  | none =>
    let s3 : State :=
      { s1 with queue :=
          mapSet s1.queue genId { msg := m, attempts := 0, maxAttempts } }
    let r := trySend s3 genId chOpen sendOk
    (r.1, r.2.1, genId)

/-- `MessageQueue.enqueue(data, maxAttempts)`.  `genId` is the value of
`Math.random().toString(36).substring(2)`; `chOpen`/`sendOk` feed the
immediate `trySend`.  Returns the new state, the transmissions, and the
string returned to the caller. -/
def enqueue (s : State) (m : Msg) (maxAttempts : Nat) (genId : String)
    (chOpen sendOk : Bool) : State × List Send × String :=
  let pre : Option State :=
    match m.mtype, m.quizId with
    | MType.answer, some q =>
      if q ∈ s.completedQuizzes then none
      else if q ∈ s.submittedAnswers then none
      else
        let purged := (s.queue.filter (fun e => isAnswerFor q e.2)).map
          (fun e => e.1)
        some { s with
          queue := s.queue.filter (fun e => !(isAnswerFor q e.2)),
          pendingMessages := s.pendingMessages.filter
            (fun x => !(purged.contains x)),
          submittedAnswers := addOnce s.submittedAnswers q }
    | _, _ => some s
  match pre with
  | none => (s, [], "")
  | some s1 => enqueueRest s1 m maxAttempts genId chOpen sendOk

/-- Body of the retry sweep for one queue id (the `for` body in
`startRetryTimer`): skip pending entries, purge acknowledged ones, drop
exhausted ones, otherwise `trySend`. -/
def sweepBody (s : State) (id : String) (chOpen sendOk : Bool) :
    State × List Send :=
  match mapGet s.queue id with
  | none => (s, [])
  | some m =>
    if id ∈ s.pendingMessages then (s, [])
    else if id ∈ s.acknowledgedMessages then
      ({ s with queue := mapDel s.queue id }, [])
    else if m.maxAttempts ≤ m.attempts then
      ({ s with queue := mapDel s.queue id }, [])
    else
      let r := trySend s id chOpen sendOk
      (r.1, r.2.1)

/-- Iterate the sweep body over a list of queue ids (the `for..of` over the
live map: each body only ever deletes its own entry, so iterating the
snapshot of keys is equivalent). -/
def sweepIds (s : State) (ids : List String) (chOpen : Bool)
    (sendOk : String → Bool) : State × List Send :=
  match ids with
  | [] => (s, [])
  | id :: rest =>
    let r1 := sweepBody s id chOpen (sendOk id)
    let r2 := sweepIds r1.1 rest chOpen sendOk
    (r2.1, r1.2 ++ r2.2)

/-- One tick of the 1s retry timer (`startRetryTimer`): only acts when the
queue is non-empty and the channel is open. -/
def retrySweep (s : State) (chOpen : Bool) (sendOk : String → Bool) :
    State × List Send :=
  if 0 < s.queue.length ∧ chOpen then
    sweepIds s (s.queue.map (fun e => e.1)) chOpen sendOk
  else (s, [])

/-- The externally triggerable operations of one `MessageQueue`, with their
environment parameters. -/
inductive Event
  | enq (m : Msg) (maxAttempts : Nat) (genId : String) (chOpen sendOk : Bool)
  | send (id : String) (chOpen sendOk : Bool)
  | sweep (chOpen : Bool) (sendOk : String → Bool)
  | timeout (id : String) (msg : Msg)
  | ackev (id : String)

/-- One step of the queue, returning the transmissions it performs. -/
def step (s : State) (e : Event) : State × List Send :=
  match e with
  | .enq m ma g c ok => ((enqueue s m ma g c ok).1, (enqueue s m ma g c ok).2.1)
  | .send id c ok => ((trySend s id c ok).1, (trySend s id c ok).2.1)
  | .sweep c ok => retrySweep s c ok
  | .timeout id msg => (ackTimeout s id msg, [])
  | .ackev id => (acknowledge s id, [])

/-- Run a trace of operations, collecting all transmissions in order. -/
def run (s : State) : List Event → State × List Send
  | [] => (s, [])
  | e :: es =>
    let r1 := step s e
    let r2 := run r1.1 es
    (r2.1, r1.2 ++ r2.2)

/-- Number of transmissions of an answer for quiz `q` in an output list. -/
def answerSends (q : String) (out : List Send) : Nat :=
  out.countP (fun sd => sd.2.mtype == MType.answer && sd.2.quizId == some q)

/-- Number of queued messages that are answers for quiz `q`. -/
def answersFor (q : String) (s : State) : Nat :=
  s.queue.countP (fun e => isAnswerFor q e.2)

/-- Number of queued answers for quiz `q` that have never been attempted
(`attempts = 0`); only these can still be transmitted by `trySend`. -/
def freshAnswersFor (q : String) (s : State) : Nat :=
  s.queue.countP (fun e => isAnswerFor q e.2 && e.2.attempts == 0)

end MessageQueue

/-! ### Signaling poll backoff (`pollUpdates.pollFunction`, `src/lib/p2p.ts`)

The interval arithmetic uses JS floats; every reachable value
(1000 · 1.5ᵏ capped at 5000) is exactly representable in binary floating
point, so the embedding uses exact rationals. -/

/-- The adaptive-polling state of `pollUpdates`: the consecutive-failure
counter and the current polling interval in milliseconds. -/
structure PollBackoff where
  consecutiveFailures : Nat
  pollingInterval : ℚ
deriving DecidableEq, Repr

/-- `consecutiveFailures = 0`, `pollingInterval = 1000` at loop start. -/
def PollBackoff.init : PollBackoff :=
  { consecutiveFailures := 0, pollingInterval := 1000 }

/-- One invocation of `pollFunction`, as far as the backoff state is
concerned.  If the failure counter has reached `MAX_FAILURES = 5` the
interval is grown (×1.5, capped at `MAX_POLLING_INTERVAL = 5000`), the
counter is reset and the iteration is skipped (the fetch never happens, so
`succ` is irrelevant).  Otherwise `succ` says whether the poll round-trip
succeeded: on success the counter is cleared (the interval is untouched by
the source); on failure the `catch` block increments the counter. -/
def pollTick (s : PollBackoff) (succ : Bool) : PollBackoff :=
  if 5 ≤ s.consecutiveFailures then
    { consecutiveFailures := 0,
      pollingInterval := min (s.pollingInterval * (3 / 2)) 5000 }
  else if succ then
    { s with consecutiveFailures := 0 }
  else
    { s with consecutiveFailures := s.consecutiveFailures + 1 }

/-- Run a sequence of poll outcomes. -/
def pollRun (s : PollBackoff) : List Bool → PollBackoff
  | [] => s
  | b :: bs => pollRun (pollTick s b) bs

/-! ### ICE-candidate handling in `pollUpdates.pollFunction`

A candidate is identified with its serialized JSON value (the source keys
its dedup set on `JSON.stringify(ice)`). -/

/-- Candidate-processing state of one `pollUpdates` run:
`processedIceCandidates`, `pendingIceCandidates`, and whether
`peer.remoteDescription` is set. -/
structure PollIce where
  processed : List String
  pending : List String
  remoteDescSet : Bool
deriving DecidableEq, Repr

/-- State at the start of a `pollUpdates` run (for a peer whose remote
description is not yet set). -/
def PollIce.init : PollIce :=
  { processed := [], pending := [], remoteDescSet := false }

/-- Handling of one received remote candidate (identical in the creator and
participant branches): skip if already processed; buffer (and mark
processed) if no remote description is set; otherwise `addIceCandidate`
(`applyOk` = whether it succeeds) and mark processed on success.  Returns
the candidates applied. -/
def handleCandidate (s : PollIce) (c : String) (applyOk : Bool) :
    PollIce × List String :=
  if c ∈ s.processed then (s, [])
  else if !s.remoteDescSet then
    ({ s with pending := s.pending ++ [c], processed := s.processed ++ [c] },
     [])
  else if applyOk then
    ({ s with processed := s.processed ++ [c] }, [c])
  else (s, [])

/-- A list of received candidates, in arrival order. -/
def handleCandidates (s : PollIce) (cs : List String) (ok : String → Bool) :
    PollIce × List String :=
  match cs with
  | [] => (s, [])
  | c :: rest =>
    let r1 := handleCandidate s c (ok c)
    let r2 := handleCandidates r1.1 rest ok
    (r2.1, r1.2 ++ r2.2)

/-- The flush of `pendingIceCandidates` performed by the creator branch right
after `setRemoteDescription` succeeds: each buffered candidate is applied in
order (failures are logged and dropped), re-recorded as processed on
success, and the buffer is cleared. -/
def drainPending (s : PollIce) (ok : String → Bool) : PollIce × List String :=
  let applied := s.pending.filter ok
  ({ s with pending := [],
            processed := applied.foldl addOnce s.processed }, applied)

/-- One participant entry of a creator-side poll response: whether an answer
is present (and whether `setRemoteDescription` on it would succeed), and the
remote candidates it carries. -/
structure PartUpdate where
  answer : Option Bool
  ice : List String

/-- Creator branch of `pollFunction` for one participant entry: a first
answer (while no remote description is set) is applied and the buffer
drained; a failed `setRemoteDescription` hits `continue`, skipping the
entry's candidates. -/
def creatorPart (s : PollIce) (p : PartUpdate) (ok : String → Bool) :
    PollIce × List String :=
  match p.answer, s.remoteDescSet with
  | some setOk, false =>
    if setOk then
      let r1 := drainPending { s with remoteDescSet := true } ok
      let r2 := handleCandidates r1.1 p.ice ok
      (r2.1, r1.2 ++ r2.2)
    else (s, [])
  | _, _ => handleCandidates s p.ice ok

/-- Creator branch of one poll iteration: the `for..of` over
`session.participants`. -/
def creatorPoll (s : PollIce) (ps : List PartUpdate) (ok : String → Bool) :
    PollIce × List String :=
  match ps with
  | [] => (s, [])
  | p :: rest =>
    let r1 := creatorPart s p ok
    let r2 := creatorPoll r1.1 rest ok
    (r2.1, r1.2 ++ r2.2)

/-- Events of a `pollUpdates` run: a creator-role poll iteration, a
participant-role poll iteration (`session.creatorIce` handling — note it has
no drain step), and the remote description becoming set outside the loop
(the participant negotiation path sets it in `joinConnection`). -/
inductive PollEvent
  | creatorIter (ps : List PartUpdate) (ok : String → Bool)
  | participantIter (ice : List String) (ok : String → Bool)
  | remoteDescSet

/-- One step of an ICE-polling run. -/
def pollIceStep (s : PollIce) (e : PollEvent) : PollIce × List String :=
  match e with
  | .creatorIter ps ok => creatorPoll s ps ok
  | .participantIter ice ok => handleCandidates s ice ok
  | .remoteDescSet => ({ s with remoteDescSet := true }, [])

/-- Run a whole sequence of polling events, collecting applied candidates. -/
def pollIceRun (s : PollIce) : List PollEvent → PollIce × List String
  | [] => (s, [])
  | e :: es =>
    let r1 := pollIceStep s e
    let r2 := pollIceRun r1.1 es
    (r2.1, r1.2 ++ r2.2)

/-! ### Heartbeat liveness monitor (`startHeartbeat`, `src/app/page.tsx`)

React `setX` calls are modelled as updates of the corresponding state
field, and reads of the status variables as reads of the current state. -/

/-- `heartbeatStatus` values. -/
inductive HBStatus
  | connected
  | reconnecting
  | disconnected
deriving DecidableEq, Repr

/-- `connectionStatus` values. -/
inductive ConnStatus
  | connected
  | connecting
  | disconnected
deriving DecidableEq, Repr

/-- State owned by the heartbeat machinery: the `missedHeartbeats` counter
and the two status variables. -/
structure HBState where
  missedHeartbeats : Nat
  heartbeatStatus : HBStatus
  connectionStatus : ConnStatus
deriving DecidableEq, Repr

/-- One tick of the 3s heartbeat interval.  `chOpen` is
`channel.readyState === 'open'`; `stale` is
`timeSinceLastResponse > 8000`; `transportDown` is the transport-level
condition checked before demoting `connectionStatus` (channel not open, or
the tracked peer connection not reporting `connected`); `sendFails` is
whether `channel.send` of the probe throws.  `MAX_MISSED_HEARTBEATS = 3`. -/
def hbTick (s : HBState) (chOpen stale transportDown sendFails : Bool) :
    HBState :=
  if !chOpen then
    let m := s.missedHeartbeats + 1
    if 3 ≤ m then
      { missedHeartbeats := m, heartbeatStatus := HBStatus.disconnected,
        connectionStatus :=
          if s.connectionStatus ≠ ConnStatus.disconnected ∧ 3 + 2 ≤ m then
            ConnStatus.disconnected
          else s.connectionStatus }
    else
      { s with missedHeartbeats := m,
               heartbeatStatus := HBStatus.reconnecting }
  else
    let s1 : HBState :=
      if stale then
        let m := s.missedHeartbeats + 1
        if 3 ≤ m then
          { missedHeartbeats := m, heartbeatStatus := HBStatus.disconnected,
            connectionStatus :=
              if 3 + 2 ≤ m ∧ transportDown then ConnStatus.disconnected
              else s.connectionStatus }
        else
          -- the `else if (missedHeartbeats >= 1)` guard is always true here
          { s with missedHeartbeats := m,
                   heartbeatStatus := HBStatus.reconnecting }
      else if 0 < s.missedHeartbeats then
        { missedHeartbeats := 0, heartbeatStatus := HBStatus.connected,
          connectionStatus :=
            if s.connectionStatus ≠ ConnStatus.connected then
              ConnStatus.connected
            else s.connectionStatus }
      else s
    -- the channel is open, so the probe is sent; a throwing send counts a miss
    if sendFails then { s1 with missedHeartbeats := s1.missedHeartbeats + 1 }
    else s1

/-- The wrapped `channel.onmessage` installed by `startHeartbeat`, on receipt
of a message with `type === 'heartbeat'`: refresh the response timestamp,
clear the missed counter, and restore both statuses. -/
def hbReceive (s : HBState) : HBState :=
  let s1 : HBState := { s with missedHeartbeats := 0 }
  if s1.heartbeatStatus ≠ HBStatus.connected then
    { s1 with heartbeatStatus := HBStatus.connected,
              connectionStatus :=
                if s1.connectionStatus ≠ ConnStatus.connected then
                  ConnStatus.connected
                else s1.connectionStatus }
  else s1

/-! ### Inbound deduplication (`dataChannel.onmessage` in `createConnection`
and `channel.onmessage` in `joinConnection`, `src/lib/p2p.ts`; both are
character-for-character the same logic). -/

/-- An inbound envelope as inspected by the channel-level handler. -/
structure InMsg where
  mtype : MType
  messageId : Option String := none
deriving DecidableEq, Repr

/-- Result of the channel-level inbound handler: the updated dedup set and
queue, whether an acknowledgment was transmitted (a direct `channel.send`,
never an `enqueue`), and whether the message was seen for the first time
(the branch in which the application-level processing of a fresh message
happens). -/
structure InResult where
  processedMessageIds : List String
  queueState : MessageQueue.State
  ackSent : Bool
  freshlyProcessed : Bool
deriving Repr

/-- The inbound handler: an `ack` envelope is routed to
`messageQueue.acknowledge` and dropped; any other envelope carrying a
`messageId` is recorded once, and an acknowledgment is sent back (only for
the kinds requiring reliability, only while the channel is open, and only on
first receipt). -/
def handleInbound (processed : List String) (qs : MessageQueue.State)
    (m : InMsg) (chOpen : Bool) : InResult :=
  match m.mtype, m.messageId with
  | MType.ack, some mid =>
    { processedMessageIds := processed,
      queueState := MessageQueue.acknowledge qs mid,
      ackSent := false, freshlyProcessed := false }
  | _, _ =>
    match m.messageId with
    | some mid =>
      if mid ∈ processed then
        { processedMessageIds := processed, queueState := qs,
          ackSent := false, freshlyProcessed := false }
      else
        { processedMessageIds := processed ++ [mid], queueState := qs,
          ackSent := decide ((m.mtype = MType.quiz ∨ m.mtype = MType.answer)
            ∧ chOpen = true),
          freshlyProcessed := true }
    | none =>
      { processedMessageIds := processed, queueState := qs,
        ackSent := false, freshlyProcessed := false }

/-! ### Page-level message handlers (`src/app/page.tsx`)

The creator handler is the `dataChannel.onmessage` installed by
`handleCreateQuiz`; the participant handler is the `channel.onmessage`
installed by `setupDataChannel`.  Quiz/answer payloads are identified by the
id they carry (`payloadId`); `none` models a payload whose `JSON.parse`
throws (the surrounding `try` swallows it after the earlier effects). -/

/-- An envelope as seen by the page-level handlers. -/
structure PageMsg where
  mtype : MType
  messageId : Option String := none
  isResponse : Bool := false
  participantId : Option String := none
  payloadId : Option String := none
deriving DecidableEq, Repr

/-- Participant-page state touched by its handler. -/
structure ParticipantUI where
  processedMessageIds : List String
  receivedQuizzes : List String
  heartbeatStatus : HBStatus
  connectionStatus : ConnStatus
deriving DecidableEq, Repr

/-- Fresh participant-page state. -/
def ParticipantUI.init : ParticipantUI :=
  { processedMessageIds := [], receivedQuizzes := [],
    heartbeatStatus := HBStatus.disconnected,
    connectionStatus := ConnStatus.disconnected }

/-- The participant page handler: `ack` envelopes are dropped; fresh
`messageId`s are recorded and acknowledged (reliable kinds only, channel
open only); every heartbeat — response-tagged or not — refreshes the
statuses and is echoed with an `isResponse`-tagged heartbeat sent directly
on the channel; quiz payloads are appended unless a quiz with the same id is
already present. -/
def participantOnMessage (s : ParticipantUI) (m : PageMsg) (chOpen : Bool) :
    ParticipantUI × List PageMsg :=
  if m.mtype = MType.ack ∧ m.messageId.isSome then (s, [])
  else
    let step1 : ParticipantUI × List PageMsg :=
      match m.messageId with
      | some mid =>
        if mid ∈ s.processedMessageIds then (s, [])
        else
          ({ s with processedMessageIds := s.processedMessageIds ++ [mid] },
           if (m.mtype = MType.quiz ∨ m.mtype = MType.answer) ∧ chOpen = true
           then [{ mtype := MType.ack, messageId := some mid }]
           else [])
      | none => (s, [])
    let s1 := step1.1
    let acks := step1.2
    if m.mtype = MType.heartbeat then
      let s2 : ParticipantUI :=
        { s1 with heartbeatStatus := HBStatus.connected,
                  connectionStatus :=
                    if s1.connectionStatus ≠ ConnStatus.connected
                        ∧ chOpen = true then
                      ConnStatus.connected
                    else s1.connectionStatus }
      (s2, acks ++ [{ mtype := MType.heartbeat, isResponse := true }])
    else if m.mtype = MType.quiz then
      match m.payloadId with
      | some qid =>
        if qid ∈ s1.receivedQuizzes then (s1, acks)
        else ({ s1 with receivedQuizzes := s1.receivedQuizzes ++ [qid] },
              acks)
      | none => (s1, acks)
    else (s1, acks)

/-- Creator-page state touched by its handler.  `participantAnswers` keeps
`(quizId, participantId)` pairs, which is what its duplicate check reads. -/
structure CreatorUI where
  processedMessageIds : List String
  participantAnswers : List (String × String)
  connectedParticipants : List String
  heartbeatStatus : HBStatus
deriving DecidableEq, Repr

/-- Fresh creator-page state. -/
def CreatorUI.init : CreatorUI :=
  { processedMessageIds := [], participantAnswers := [],
    connectedParticipants := [], heartbeatStatus := HBStatus.disconnected }

/-- The creator page handler: `ack` envelopes are dropped; fresh
`messageId`s are recorded and acknowledged; a heartbeat refreshes the status
and records the sender — it is never echoed; answers are appended unless an
answer for the same `(quizId, participantId)` is already recorded. -/
def creatorOnMessage (s : CreatorUI) (m : PageMsg) (chOpen : Bool) :
    CreatorUI × List PageMsg :=
  if m.mtype = MType.ack ∧ m.messageId.isSome then (s, [])
  else
    let step1 : CreatorUI × List PageMsg :=
      match m.messageId with
      | some mid =>
        if mid ∈ s.processedMessageIds then (s, [])
        else
          ({ s with processedMessageIds := s.processedMessageIds ++ [mid] },
           if (m.mtype = MType.quiz ∨ m.mtype = MType.answer) ∧ chOpen = true
           then [{ mtype := MType.ack, messageId := some mid }]
           else [])
      | none => (s, [])
    let s1 := step1.1
    let acks := step1.2
    if m.mtype = MType.heartbeat then
      ({ s1 with heartbeatStatus := HBStatus.connected,
                 connectedParticipants :=
                   match m.participantId with
                   | some pid => addOnce s1.connectedParticipants pid
                   | none => s1.connectedParticipants },
       acks)
    else if m.mtype = MType.answer then
      match m.participantId with
      | some pid =>
        let s2 : CreatorUI :=
          match m.payloadId with
          | some qid =>
            if s1.participantAnswers.any
                (fun a => a.1 == qid && a.2 == pid) then s1
            else { s1 with participantAnswers :=
              s1.participantAnswers ++ [(qid, pid)] }
          | none => s1
        (match m.payloadId with
         | some _ =>
           ({ s2 with connectedParticipants :=
               addOnce s2.connectedParticipants pid }, acks)
         | none => (s2, acks))
      | none => (s1, acks)
    else (s1, acks)

/-! ### Invariants and concrete runs used by the theorems below -/

/-- Per-candidate invariant carried through an ICE-polling run: `n` is the
number of successful applications of candidate `c` so far. -/
def IceInv (c : String) (s : PollIce) (n : Nat) : Prop :=
  n + s.pending.count c ≤ 1 ∧ (c ∈ s.pending → c ∈ s.processed) ∧
  (1 ≤ n → c ∈ s.processed)

/-- Per-quiz invariant carried through a `MessageQueue` run: `n` is the
number of answer transmissions for quiz `q` so far.  Queue keys stay
duplicate-free; the transmissions already performed plus the queued answers
still eligible for transmission never exceed one; at most one queued answer
per quiz exists; and any transmission or queued answer implies the quiz is
recorded in `submittedAnswers`. -/
def QInv (q : String) (s : MessageQueue.State) (n : Nat) : Prop :=
  (s.queue.map Prod.fst).Nodup ∧
  n + MessageQueue.freshAnswersFor q s ≤ 1 ∧
  MessageQueue.answersFor q s ≤ 1 ∧
  (1 ≤ n → q ∈ s.submittedAnswers) ∧
  (1 ≤ MessageQueue.answersFor q s → q ∈ s.submittedAnswers)

/-- A reliable quiz envelope whose caller-supplied correlation id is `"m"`. -/
def ceQuizM : Msg := { mtype := MType.quiz, messageId := some "m" }

/-- Acknowledge 99 distinct unrelated ids (filling the acknowledged set). -/
def ceFill (s : MessageQueue.State) : MessageQueue.State :=
  ((List.range 99).map (fun i => "x" ++ toString i)).foldl
    MessageQueue.acknowledge s

/-- The state reached by: acknowledge `"m"`; enqueue a quiz envelope carrying
`messageId "m"` (refused — already acknowledged — but the correlation map now
maps `"m"` to the fresh queue id `"g2"`); acknowledge 99 unrelated ids; then
acknowledge `"m"` again.  That last call records `"g2"`, overflows the
100-entry cap and evicts the oldest 50 entries — among them `"m"` itself. -/
def ceC2state : MessageQueue.State :=
  MessageQueue.acknowledge
    (ceFill ((MessageQueue.enqueue
      (MessageQueue.acknowledge MessageQueue.State.init "m")
      ceQuizM 5 "g2" false false).1)) "m"

/-- An answer envelope for quiz `"qz"`. -/
def ceAnswerQz : Msg := { mtype := MType.answer, quizId := some "qz" }

/-- State with one queued (unsent — channel closed) answer for `"qz"`. -/
def ceC3s1 : MessageQueue.State :=
  (MessageQueue.enqueue MessageQueue.State.init ceAnswerQz 5 "gA"
    false false).1

/-! ## Helper lemmas -/

theorem mem_addOnce_self (l : List String) (x : String) : x ∈ addOnce l x := by
  unfold addOnce
  split
  · assumption
  · simp

theorem mem_addOnce_of_mem {l : List String} {y : String} (x : String)
    (h : y ∈ l) : y ∈ addOnce l x := by
  unfold addOnce
  split
  · exact h
  · simp [h]

theorem addOnce_of_not_mem {l : List String} {x : String} (h : x ∉ l) :
    addOnce l x = l ++ [x] := by
  simp [addOnce, h]

theorem addOnce_of_mem {l : List String} {x : String} (h : x ∈ l) :
    addOnce l x = l := by
  simp [addOnce, h]

theorem length_addOnce_le (l : List String) (x : String) :
    (addOnce l x).length ≤ l.length + 1 := by
  unfold addOnce
  split
  · omega
  · simp

theorem not_mem_setDel (l : List String) (x : String) : x ∉ setDel l x := by
  simp [setDel]

theorem setDel_of_not_mem {l : List String} {x : String} (h : x ∉ l) :
    setDel l x = l := by
  unfold setDel
  rw [List.filter_eq_self]
  intro y hy
  simp only [bne_iff_ne, ne_eq]
  exact fun e => h (e ▸ hy)

theorem mapGet_mapDel_self {β : Type} (l : List (String × β)) (k : String) :
    mapGet (mapDel l k) k = none := by
  unfold mapGet mapDel
  rw [Option.map_eq_none', List.find?_eq_none]
  intro e he
  have h2 : e.1 ≠ k := by simpa using List.of_mem_filter he
  simp [h2]

theorem mapGet_eq_none_iff {β : Type} (l : List (String × β)) (k : String) :
    mapGet l k = none ↔ ∀ e ∈ l, e.1 ≠ k := by
  unfold mapGet
  rw [Option.map_eq_none', List.find?_eq_none]
  constructor
  · intro h e he
    simpa using h e he
  · intro h e he
    simpa using h e he

theorem mapDel_of_get_none {β : Type} {l : List (String × β)} {k : String}
    (h : mapGet l k = none) : mapDel l k = l := by
  rw [mapGet_eq_none_iff] at h
  unfold mapDel
  rw [List.filter_eq_self]
  intro e he
  simpa using h e he

theorem mapGet_any_of_some {β : Type} {l : List (String × β)} {k : String}
    {w : β} (h : mapGet l k = some w) :
    l.any (fun e => e.1 == k) = true := by
  unfold mapGet at h
  rcases hf : l.find? (fun e => e.1 == k) with _ | e
  · rw [hf] at h
    simp at h
  · have hp := List.find?_some hf
    rw [List.any_eq_true]
    exact ⟨e, List.mem_of_find?_eq_some hf, hp⟩

/-- Splitting an association list with duplicate-free keys at a present key:
`mapSet` rewrites exactly that entry in place and `mapDel` removes exactly
it. -/
theorem mapGet_decomp {β : Type} :
    ∀ (l : List (String × β)) (k : String) (w : β),
      (l.map Prod.fst).Nodup → mapGet l k = some w →
      ∃ l1 l2, l = l1 ++ (k, w) :: l2 ∧
        (∀ v, mapSet l k v = l1 ++ (k, v) :: l2) ∧
        mapDel l k = l1 ++ l2 ∧
        (∀ e ∈ l1, e.1 ≠ k) ∧ (∀ e ∈ l2, e.1 ≠ k) := by
  intro l
  induction l with
  | nil =>
    intro k w _ hget
    simp [mapGet] at hget
  | cons e t ih =>
    intro k w hnd hget
    have hndc : (e.1 :: t.map Prod.fst).Nodup := by
      rw [List.map_cons] at hnd
      exact hnd
    by_cases he : e.1 = k
    · have hw : e.2 = w := by
        have h2 : mapGet (e :: t) k = some e.2 := by
          unfold mapGet
          rw [List.find?_cons_of_pos _ (by simpa using he)]
          rfl
        rw [h2] at hget
        exact Option.some.inj hget
      have hek : e = (k, w) := by
        rw [← he, ← hw, Prod.mk.eta]
      have htk : ∀ x ∈ t, x.1 ≠ k := by
        intro x hx hxk
        have hnin : e.1 ∉ t.map Prod.fst := (List.nodup_cons.mp hndc).1
        exact hnin (by
          rw [he, ← hxk]
          exact List.mem_map_of_mem Prod.fst hx)
      refine ⟨[], t, by simp [hek], ?_, ?_, by simp, htk⟩
      · intro v
        have hany2 : ((e :: t).any (fun x => x.1 == k)) = true := by
          simp [he]
        unfold mapSet
        rw [if_pos hany2]
        simp only [List.map_cons]
        rw [if_pos (by simpa using he)]
        have hm : t.map (fun x => if x.1 == k then (k, v) else x) = t := by
          have h2 : ∀ x ∈ t, (if x.1 == k then (k, v) else x) = id x := by
            intro x hx
            simp [htk x hx]
          rw [List.map_congr_left h2, List.map_id]
        rw [hm]
        simp
      · unfold mapDel
        simp only [List.filter_cons]
        rw [if_neg (by simpa using he)]
        have hm : t.filter (fun x => x.1 != k) = t :=
          List.filter_eq_self.mpr (fun x hx => by simpa using htk x hx)
        simp [hm]
    · have hget' : mapGet t k = some w := by
        unfold mapGet at hget ⊢
        rwa [List.find?_cons_of_neg _ (by simpa using he)] at hget
      have hnd' : (t.map Prod.fst).Nodup := (List.nodup_cons.mp hndc).2
      obtain ⟨l1, l2, hsplit, hset, hdel, h1k, h2k⟩ := ih k w hnd' hget'
      refine ⟨e :: l1, l2, by simp [hsplit], ?_, ?_, ?_, h2k⟩
      · intro v
        have hany : t.any (fun x => x.1 == k) = true :=
          mapGet_any_of_some hget'
        have hany2 : ((e :: t).any (fun x => x.1 == k)) = true := by
          simp [hany]
        have hs := hset v
        unfold mapSet at hs ⊢
        rw [if_pos hany] at hs
        rw [if_pos hany2]
        simp only [List.map_cons]
        rw [if_neg (by simpa using he), hs]
        simp
      · unfold mapDel
        simp only [List.filter_cons]
        rw [if_pos (by simpa using he)]
        unfold mapDel at hdel
        simp [hdel]
      · intro x hx
        rcases List.mem_cons.mp hx with hx | hx
        · rw [hx]
          exact he
        · exact h1k x hx

theorem nodup_keys_mapSet {β : Type} {l : List (String × β)} {k : String}
    (v : β) (hnd : (l.map Prod.fst).Nodup) :
    ((mapSet l k v).map Prod.fst).Nodup := by
  by_cases hany : l.any (fun e => e.1 == k) = true
  · have hkeys : (mapSet l k v).map Prod.fst = l.map Prod.fst := by
      unfold mapSet
      rw [if_pos hany, List.map_map]
      refine List.map_congr_left ?_
      intro e _
      by_cases he : e.1 = k
      · simp [Function.comp, he]
      · simp [Function.comp, he]
    rwa [hkeys]
  · unfold mapSet
    rw [if_neg hany]
    rw [List.map_append, List.nodup_append]
    refine ⟨hnd, by simp, ?_⟩
    intro x hx
    simp only [List.map_cons, List.map_nil]
    intro hk
    have hxk : x = k := by simpa using hk
    rw [List.any_eq_true] at hany
    rw [List.mem_map] at hx
    obtain ⟨e, he, hex⟩ := hx
    exact hany ⟨e, he, by simp [hex, hxk]⟩

theorem nodup_keys_sublist {β : Type} {l l₂ : List (String × β)}
    (hs : l₂.Sublist l) (hnd : (l.map Prod.fst).Nodup) :
    (l₂.map Prod.fst).Nodup :=
  (hs.map Prod.fst).nodup hnd

theorem mapDel_sublist {β : Type} (l : List (String × β)) (k : String) :
    (mapDel l k).Sublist l := List.filter_sublist l

/-- `trySend` never touches `submittedAnswers` or `completedQuizzes`. -/
theorem trySend_fields_eq (s : MessageQueue.State) (id : String)
    (c o : Bool) :
    (MessageQueue.trySend s id c o).1.submittedAnswers =
      s.submittedAnswers ∧
    (MessageQueue.trySend s id c o).1.completedQuizzes =
      s.completedQuizzes := by
  unfold MessageQueue.trySend
  dsimp only
  repeat' split
  all_goals exact ⟨rfl, rfl⟩

/-- Case analysis of `trySend`: either it transmits nothing and only ever
deletes from the queue, or the queue holds `m` under `id`, the answer-class
guards passed (an answer is only transmitted when its quiz is not complete
and it was never attempted), the queue is — up to the deletions the ack
special case performs — the original with that entry's attempt counter
bumped, and at most `(id, m.msg)` is transmitted. -/
theorem trySend_cases (s : MessageQueue.State) (id : String) (c o : Bool) :
    ((MessageQueue.trySend s id c o).1.queue.Sublist s.queue ∧
      (MessageQueue.trySend s id c o).2.1 = []) ∨
    (∃ m, mapGet s.queue id = some m ∧
      (∀ qz, m.msg.mtype = MType.answer → m.msg.quizId = some qz →
        qz ∉ s.completedQuizzes ∧ m.attempts = 0) ∧
      (MessageQueue.trySend s id c o).1.queue.Sublist
        (mapSet s.queue id ⟨m.msg, m.attempts + 1, m.maxAttempts⟩) ∧
      ((MessageQueue.trySend s id c o).2.1 = [] ∨
        (MessageQueue.trySend s id c o).2.1 = [(id, m.msg)])) := by
  unfold MessageQueue.trySend
  split
  · exact Or.inl ⟨mapDel_sublist _ _, rfl⟩
  split
  · exact Or.inl ⟨List.Sublist.refl _, rfl⟩
  split
  · exact Or.inl ⟨List.Sublist.refl _, rfl⟩
  rename_i m hm
  split
  · exact Or.inl ⟨List.Sublist.refl _, rfl⟩
  dsimp only
  split
  · exact Or.inl ⟨mapDel_sublist _ _, rfl⟩
  split
  · exact Or.inl ⟨mapDel_sublist _ _, rfl⟩
  rename_i hblocked hmax
  have hcond : ∀ qz, m.msg.mtype = MType.answer → m.msg.quizId = some qz →
      qz ∉ s.completedQuizzes ∧ m.attempts = 0 := by
    intro qz hmt hqz
    rw [hmt, hqz] at hblocked
    simp at hblocked
    exact ⟨hblocked.1, by omega⟩
  refine Or.inr ⟨m, hm, hcond, ?_, ?_⟩
  · split
    · split
      · exact mapDel_sublist _ _
      · exact List.Sublist.refl _
    · split
      · exact mapDel_sublist _ _
      · exact List.Sublist.refl _
  · split
    · exact Or.inr rfl
    · exact Or.inl rfl

/-- Generic monotonicity of the per-quiz invariant: it survives any
operation that only deletes queue entries and keeps `submittedAnswers`. -/
theorem qinv_mono (q : String) (n : Nat) {s s' : MessageQueue.State}
    (h : QInv q s n) (hq : s'.queue.Sublist s.queue)
    (hs : s'.submittedAnswers = s.submittedAnswers) : QInv q s' n := by
  obtain ⟨h1, h2, h3, h4, h5⟩ := h
  have hf := hq.countP_le (fun e => isAnswerFor q e.2 && e.2.attempts == 0)
  have ha := hq.countP_le (fun e => isAnswerFor q e.2)
  refine ⟨nodup_keys_sublist hq h1, ?_, ?_, fun hn => hs ▸ h4 hn, ?_⟩
  · unfold MessageQueue.freshAnswersFor at h2 ⊢
    omega
  · unfold MessageQueue.answersFor at h3 ⊢
    omega
  · intro hge
    rw [hs]
    refine h5 ?_
    unfold MessageQueue.answersFor at hge ⊢
    omega

/-- The per-quiz invariant is preserved by `trySend`, counting its
transmissions. -/
theorem qinv_trySend (q : String) (s : MessageQueue.State) (id : String)
    (c o : Bool) (n : Nat) (h : QInv q s n) :
    QInv q (MessageQueue.trySend s id c o).1
      (n + MessageQueue.answerSends q
        (MessageQueue.trySend s id c o).2.1) := by
  have hsub := (trySend_fields_eq s id c o).1
  rcases trySend_cases s id c o with ⟨hq, hout⟩ | ⟨m, hm, hcond, hq, hout⟩
  · rw [hout]
    have h0 : MessageQueue.answerSends q ([] : List Send) = 0 := rfl
    rw [h0]
    exact qinv_mono q (n + 0) h hq hsub
  · obtain ⟨h1, h2, h3, h4, h5⟩ := h
    obtain ⟨l1, l2, hsplit, hset, hdel, h1k, h2k⟩ :=
      mapGet_decomp s.queue id m h1 hm
    have hndset : ((mapSet s.queue id
        ⟨m.msg, m.attempts + 1, m.maxAttempts⟩).map Prod.fst).Nodup :=
      nodup_keys_mapSet _ h1
    have hnd' := nodup_keys_sublist hq hndset
    have hfle := hq.countP_le
      (fun e => isAnswerFor q e.2 && e.2.attempts == 0)
    have hale := hq.countP_le (fun e => isAnswerFor q e.2)
    rw [hset ⟨m.msg, m.attempts + 1, m.maxAttempts⟩] at hfle hale
    have hbump : ((m.attempts + 1 : Nat) == 0) = false := by
      rw [beq_eq_false_iff_ne]
      omega
    have hs0 : MessageQueue.answerSends q ([] : List Send) = 0 := rfl
    have e2 : (l1 ++ ((id, (⟨m.msg, m.attempts + 1, m.maxAttempts⟩ :
        QueuedMessage))) :: l2).countP
        (fun e => isAnswerFor q e.2 && e.2.attempts == 0) =
        l1.countP (fun e => isAnswerFor q e.2 && e.2.attempts == 0) +
        l2.countP (fun e => isAnswerFor q e.2 && e.2.attempts == 0) := by
      rw [List.countP_append, List.countP_cons]
      simp [hbump]
    rw [e2] at hfle
    by_cases haq : isAnswerFor q m = true
    · have hmt : m.msg.mtype = MType.answer := by
        have h6 := haq
        unfold isAnswerFor at h6
        simp at h6
        exact h6.1
      have hqz : m.msg.quizId = some q := by
        have h6 := haq
        unfold isAnswerFor at h6
        simp at h6
        exact h6.2
      have hatt : m.attempts = 0 := (hcond q hmt hqz).2
      have efresh : MessageQueue.freshAnswersFor q s =
          l1.countP (fun e => isAnswerFor q e.2 && e.2.attempts == 0) +
          (l2.countP (fun e => isAnswerFor q e.2 && e.2.attempts == 0)
            + 1) := by
        unfold MessageQueue.freshAnswersFor
        rw [hsplit, List.countP_append, List.countP_cons]
        simp [haq, hatt]
      have eans : MessageQueue.answersFor q s =
          l1.countP (fun e => isAnswerFor q e.2) +
          (l2.countP (fun e => isAnswerFor q e.2) + 1) := by
        unfold MessageQueue.answersFor
        rw [hsplit, List.countP_append, List.countP_cons]
        simp [haq]
      have f2 : (l1 ++ ((id, (⟨m.msg, m.attempts + 1, m.maxAttempts⟩ :
          QueuedMessage))) :: l2).countP (fun e => isAnswerFor q e.2) =
          l1.countP (fun e => isAnswerFor q e.2) +
          (l2.countP (fun e => isAnswerFor q e.2) + 1) := by
        rw [List.countP_append, List.countP_cons]
        have h7 : isAnswerFor q ⟨m.msg, m.attempts + 1, m.maxAttempts⟩
            = true := haq
        simp [h7]
      rw [f2] at hale
      have hs1 : MessageQueue.answerSends q [(id, m.msg)] = 1 := by
        unfold MessageQueue.answerSends
        rw [List.countP_cons]
        have haq2 : ((m.msg.mtype == MType.answer) &&
            (m.msg.quizId == some q)) = true := haq
        simp [haq2]
      rw [efresh] at h2
      rw [eans] at h3
      refine ⟨hnd', ?_, ?_, ?_, ?_⟩
      · rcases hout with hout | hout
        · rw [hout, hs0]
          unfold MessageQueue.freshAnswersFor
          omega
        · rw [hout, hs1]
          unfold MessageQueue.freshAnswersFor
          omega
      · unfold MessageQueue.answersFor
        omega
      · intro _
        rw [hsub]
        refine h5 ?_
        rw [eans]
        omega
      · intro _
        rw [hsub]
        refine h5 ?_
        rw [eans]
        omega
    · have haqf : isAnswerFor q m = false := Bool.eq_false_iff.mpr haq
      have efresh : MessageQueue.freshAnswersFor q s =
          l1.countP (fun e => isAnswerFor q e.2 && e.2.attempts == 0) +
          l2.countP (fun e => isAnswerFor q e.2 && e.2.attempts == 0) := by
        unfold MessageQueue.freshAnswersFor
        rw [hsplit, List.countP_append, List.countP_cons]
        simp [haqf]
      have eans : MessageQueue.answersFor q s =
          l1.countP (fun e => isAnswerFor q e.2) +
          l2.countP (fun e => isAnswerFor q e.2) := by
        unfold MessageQueue.answersFor
        rw [hsplit, List.countP_append, List.countP_cons]
        simp [haqf]
      have f2 : (l1 ++ ((id, (⟨m.msg, m.attempts + 1, m.maxAttempts⟩ :
          QueuedMessage))) :: l2).countP (fun e => isAnswerFor q e.2) =
          l1.countP (fun e => isAnswerFor q e.2) +
          l2.countP (fun e => isAnswerFor q e.2) := by
        rw [List.countP_append, List.countP_cons]
        have h7 : isAnswerFor q ⟨m.msg, m.attempts + 1, m.maxAttempts⟩
            = false := haqf
        simp [h7]
      rw [f2] at hale
      have hs1 : MessageQueue.answerSends q [(id, m.msg)] = 0 := by
        unfold MessageQueue.answerSends
        rw [List.countP_cons]
        have haq2 : ((m.msg.mtype == MType.answer) &&
            (m.msg.quizId == some q)) = false := haqf
        simp [haq2]
      rw [efresh] at h2
      rw [eans] at h3
      refine ⟨hnd', ?_, ?_, ?_, ?_⟩
      · rcases hout with hout | hout
        · rw [hout, hs0]
          unfold MessageQueue.freshAnswersFor
          omega
        · rw [hout, hs1]
          unfold MessageQueue.freshAnswersFor
          omega
      · unfold MessageQueue.answersFor
        omega
      · intro hn
        rw [hsub]
        refine h4 ?_
        rcases hout with hout | hout
        · rw [hout, hs0] at hn
          omega
        · rw [hout, hs1] at hn
          omega
      · intro hn
        rw [hsub]
        refine h5 ?_
        rw [eans]
        unfold MessageQueue.answersFor at hn
        omega

/-! ## Claim theorems -/

/-- `ackTimeout` only deletes from the queue and keeps `submittedAnswers`. -/
theorem ackTimeout_facts (s : MessageQueue.State) (id : String) (msg : Msg) :
    (MessageQueue.ackTimeout s id msg).queue.Sublist s.queue ∧
    (MessageQueue.ackTimeout s id msg).submittedAnswers =
      s.submittedAnswers := by
  unfold MessageQueue.ackTimeout
  dsimp only
  repeat' split
  all_goals
    first
      | exact ⟨List.Sublist.refl _, rfl⟩
      | exact ⟨mapDel_sublist _ _, rfl⟩

/-- `acknowledge` only deletes from the queue, and keeps `submittedAnswers`
and the correlation map. -/
theorem acknowledge_facts (s : MessageQueue.State) (id : String) :
    (MessageQueue.acknowledge s id).queue.Sublist s.queue ∧
    (MessageQueue.acknowledge s id).submittedAnswers =
      s.submittedAnswers ∧
    (MessageQueue.acknowledge s id).messageIdToQueueId =
      s.messageIdToQueueId := by
  unfold MessageQueue.acknowledge
  dsimp only
  repeat' split
  all_goals
    refine ⟨?_, rfl, rfl⟩
    first
      | exact mapDel_sublist _ _
      | exact (mapDel_sublist _ _).trans (List.filter_sublist _)

/-- The per-quiz invariant is preserved by `ackTimeout` (no sends). -/
theorem qinv_ackTimeout (q : String) (s : MessageQueue.State) (id : String)
    (msg : Msg) (n : Nat) (h : QInv q s n) :
    QInv q (MessageQueue.ackTimeout s id msg) n :=
  qinv_mono q n h (ackTimeout_facts s id msg).1 (ackTimeout_facts s id msg).2

/-- The per-quiz invariant is preserved by `acknowledge` (no sends). -/
theorem qinv_acknowledge (q : String) (s : MessageQueue.State) (id : String)
    (n : Nat) (h : QInv q s n) :
    QInv q (MessageQueue.acknowledge s id) n :=
  qinv_mono q n h (acknowledge_facts s id).1 (acknowledge_facts s id).2.1

/-- The answer purge empties the per-quiz counts for the purged quiz. -/
theorem countP_purge_ans_zero (q : String)
    (l : List (String × QueuedMessage)) :
    (l.filter (fun e => !(isAnswerFor q e.2))).countP
      (fun e => isAnswerFor q e.2) = 0 := by
  rw [List.countP_eq_zero]
  intro e he
  simpa using List.of_mem_filter he

theorem countP_purge_fresh_zero (q : String)
    (l : List (String × QueuedMessage)) :
    (l.filter (fun e => !(isAnswerFor q e.2))).countP
      (fun e => isAnswerFor q e.2 && e.2.attempts == 0) = 0 := by
  rw [List.countP_eq_zero]
  intro e he
  have h2 : isAnswerFor q e.2 = false := by
    simpa using List.of_mem_filter he
  simp [h2]

/-- Purging the answers of a different quiz does not change the counts of
quiz `q`. -/
theorem countP_purge_other (q qz : String) (hne : qz ≠ q)
    (l : List (String × QueuedMessage))
    (p : String × QueuedMessage → Bool)
    (hp : ∀ e, p e = true → isAnswerFor q e.2 = true) :
    (l.filter (fun e => !(isAnswerFor qz e.2))).countP p = l.countP p := by
  rw [List.countP_filter]
  refine List.countP_congr ?_
  intro e _
  constructor
  · intro h2
    simp only [Bool.and_eq_true] at h2
    exact h2.1
  · intro h2
    have h3 := hp e h2
    have h4 : isAnswerFor qz e.2 = false := by
      unfold isAnswerFor at h3 ⊢
      simp only [Bool.and_eq_true, beq_iff_eq] at h3
      simp only [h3.1, h3.2, Bool.and_eq_false_iff]
      right
      rw [beq_eq_false_iff_ne]
      intro h5
      exact hne (by
        have h6 := Option.some.inj h5
        exact h6.symm)
    simp [h2, h4]

/-- Inserting into an association list with duplicate-free keys bumps any
count by at most the new entry's contribution. -/
theorem countP_mapSet_le {β : Type} (l : List (String × β)) (k : String)
    (v : β) (p : String × β → Bool) (hnd : (l.map Prod.fst).Nodup) :
    (mapSet l k v).countP p ≤ l.countP p + (if p (k, v) then 1 else 0) := by
  rcases hg : mapGet l k with _ | w
  · have hpsets : mapSet l k v = l ++ [(k, v)] := by
      unfold mapSet
      rw [if_neg ?_]
      intro hany
      rw [List.any_eq_true] at hany
      obtain ⟨e, he, hek⟩ := hany
      rw [mapGet_eq_none_iff] at hg
      exact hg e he (by simpa using hek)
    rw [hpsets, List.countP_append, List.countP_cons]
    simp
  · obtain ⟨l1, l2, hsplit, hset, hdel, h1k, h2k⟩ :=
      mapGet_decomp l k w hnd hg
    rw [hset v, List.countP_append, List.countP_cons]
    rw [hsplit, List.countP_append, List.countP_cons]
    have hle : (0 : Nat) ≤ if p (k, w) then 1 else 0 := by omega
    omega

/-- Queueing a fresh entry preserves the per-quiz invariant, provided the
entry is not an answer for `q`, or all the `q`-counts are still zero with
`q` already recorded as submitted. -/
theorem qinv_insert (q : String) (s1 : MessageQueue.State) (m : Msg)
    (ma : Nat) (g : String) (n : Nat) (h : QInv q s1 n)
    (hcase : ((m.mtype == MType.answer) && (m.quizId == some q)) = false ∨
      (n = 0 ∧ MessageQueue.freshAnswersFor q s1 = 0 ∧
       MessageQueue.answersFor q s1 = 0 ∧ q ∈ s1.submittedAnswers)) :
    QInv q { s1 with queue := mapSet s1.queue g ⟨m, 0, ma⟩ } n := by
  obtain ⟨h1, h2, h3, h4, h5⟩ := h
  have hnd' : ((mapSet s1.queue g
      (⟨m, 0, ma⟩ : QueuedMessage)).map Prod.fst).Nodup :=
    nodup_keys_mapSet _ h1
  have hfle := countP_mapSet_le s1.queue g (⟨m, 0, ma⟩ : QueuedMessage)
    (fun e => isAnswerFor q e.2 && e.2.attempts == 0) h1
  have hale := countP_mapSet_le s1.queue g (⟨m, 0, ma⟩ : QueuedMessage)
    (fun e => isAnswerFor q e.2) h1
  have hbeta1 : ((fun (e : String × QueuedMessage) =>
      isAnswerFor q e.2 && e.2.attempts == 0) (g, ⟨m, 0, ma⟩)) =
      isAnswerFor q (⟨m, 0, ma⟩ : QueuedMessage) := by
    simp
  have hbeta2 : ((fun (e : String × QueuedMessage) => isAnswerFor q e.2)
      (g, (⟨m, 0, ma⟩ : QueuedMessage))) =
      isAnswerFor q (⟨m, 0, ma⟩ : QueuedMessage) := rfl
  rw [hbeta1] at hfle
  rw [hbeta2] at hale
  rcases hcase with hfalse | ⟨hn0, hf0, ha0, hqs⟩
  · have hiszero : isAnswerFor q (⟨m, 0, ma⟩ : QueuedMessage) = false :=
      hfalse
    rw [hiszero] at hfle hale
    rw [if_neg Bool.false_ne_true] at hfle hale
    refine ⟨hnd', ?_, ?_, h4, ?_⟩
    · unfold MessageQueue.freshAnswersFor at h2 ⊢
      dsimp only
      omega
    · unfold MessageQueue.answersFor at h3 ⊢
      dsimp only
      omega
    · intro hge
      refine h5 ?_
      unfold MessageQueue.answersFor at hge ⊢
      dsimp only at hge
      omega
  · subst hn0
    refine ⟨hnd', ?_, ?_, fun hge => hqs, fun hge => hqs⟩
    · unfold MessageQueue.freshAnswersFor at hf0 ⊢
      dsimp only
      rw [hf0] at hfle
      have hite : (if isAnswerFor q (⟨m, 0, ma⟩ : QueuedMessage) = true
          then (1 : Nat) else 0) ≤ 1 := by
        split <;> omega
      omega
    · unfold MessageQueue.answersFor at ha0 ⊢
      dsimp only
      rw [ha0] at hale
      have hite : (if isAnswerFor q (⟨m, 0, ma⟩ : QueuedMessage) = true
          then (1 : Nat) else 0) ≤ 1 := by
        split <;> omega
      omega

/-- The per-quiz invariant is preserved by the tail of `enqueue`. -/
theorem qinv_enqueueRest (q : String) (s1 : MessageQueue.State) (m : Msg)
    (ma : Nat) (g : String) (c o : Bool) (n : Nat) (h : QInv q s1 n)
    (hcase : ((m.mtype == MType.answer) && (m.quizId == some q)) = false ∨
      (n = 0 ∧ MessageQueue.freshAnswersFor q s1 = 0 ∧
       MessageQueue.answersFor q s1 = 0 ∧ q ∈ s1.submittedAnswers)) :
    QInv q (MessageQueue.enqueueRest s1 m ma g c o).1
      (n + MessageQueue.answerSends q
        (MessageQueue.enqueueRest s1 m ma g c o).2.1) := by
  unfold MessageQueue.enqueueRest
  rcases hmid : m.messageId with _ | mid
  · dsimp only
    exact qinv_trySend q _ g c o n (qinv_insert q s1 m ma g n h hcase)
  · dsimp only
    split
    · have h0 : MessageQueue.answerSends q ([] : List Send) = 0 := rfl
      rw [h0]
      exact h
    · exact qinv_trySend q _ g c o n (qinv_insert q _ m ma g n h hcase)

/-- The per-quiz invariant is preserved by `enqueue`, counting its
transmissions. -/
theorem qinv_enqueue (q : String) (s : MessageQueue.State) (m : Msg)
    (ma : Nat) (g : String) (c o : Bool) (n : Nat) (h : QInv q s n) :
    QInv q (MessageQueue.enqueue s m ma g c o).1
      (n + MessageQueue.answerSends q
        (MessageQueue.enqueue s m ma g c o).2.1) := by
  obtain ⟨mt, mq, mid⟩ := m
  have hns : MessageQueue.answerSends q ([] : List Send) = 0 := rfl
  cases mt with
  | answer =>
    cases mq with
    | none =>
      unfold MessageQueue.enqueue
      dsimp only
      refine qinv_enqueueRest q s _ ma g c o n h (Or.inl ?_)
      rfl
    | some qz =>
      unfold MessageQueue.enqueue
      dsimp only
      by_cases hc1 : qz ∈ s.completedQuizzes
      · rw [if_pos hc1]
        dsimp only
        rw [hns]
        exact h
      · rw [if_neg hc1]
        by_cases hc2 : qz ∈ s.submittedAnswers
        · rw [if_pos hc2]
          dsimp only
          rw [hns]
          exact h
        · rw [if_neg hc2]
          dsimp only
          obtain ⟨h1, h2, h3, h4, h5⟩ := h
          by_cases hqq : qz = q
          · subst hqq
            have hn0 : n = 0 := by
              by_contra hn
              exact hc2 (h4 (by omega))
            subst hn0
            refine qinv_enqueueRest qz _ _ ma g c o 0 ?_ (Or.inr ?_)
            · refine ⟨nodup_keys_sublist (List.filter_sublist _) h1,
                ?_, ?_, ?_, ?_⟩
              · unfold MessageQueue.freshAnswersFor
                rw [countP_purge_fresh_zero]
                omega
              · unfold MessageQueue.answersFor
                rw [countP_purge_ans_zero]
                omega
              · intro hge
                omega
              · intro hge
                unfold MessageQueue.answersFor at hge
                rw [countP_purge_ans_zero] at hge
                omega
            · refine ⟨rfl, ?_, ?_, ?_⟩
              · unfold MessageQueue.freshAnswersFor
                rw [countP_purge_fresh_zero]
              · unfold MessageQueue.answersFor
                rw [countP_purge_ans_zero]
              · exact mem_addOnce_self _ _
          · have hefr := countP_purge_other q qz hqq s.queue
              (fun e => isAnswerFor q e.2 && e.2.attempts == 0)
              (fun e he => by
                simp only [Bool.and_eq_true] at he
                exact he.1)
            have hean := countP_purge_other q qz hqq s.queue
              (fun e => isAnswerFor q e.2) (fun e he => he)
            refine qinv_enqueueRest q _ _ ma g c o n ?_ (Or.inl ?_)
            · refine ⟨nodup_keys_sublist (List.filter_sublist _) h1,
                ?_, ?_, ?_, ?_⟩
              · unfold MessageQueue.freshAnswersFor at h2 ⊢
                rw [hefr]
                exact h2
              · unfold MessageQueue.answersFor at h3 ⊢
                rw [hean]
                exact h3
              · intro hge
                exact mem_addOnce_of_mem qz (h4 hge)
              · intro hge
                unfold MessageQueue.answersFor at hge
                rw [hean] at hge
                exact mem_addOnce_of_mem qz (h5 hge)
            · simp only [Bool.and_eq_false_iff]
              right
              rw [beq_eq_false_iff_ne]
              intro h6
              exact hqq (Option.some.inj h6)
  | quiz =>
    unfold MessageQueue.enqueue
    dsimp only
    exact qinv_enqueueRest q s _ ma g c o n h (Or.inl rfl)
  | ack =>
    unfold MessageQueue.enqueue
    dsimp only
    exact qinv_enqueueRest q s _ ma g c o n h (Or.inl rfl)
  | heartbeat =>
    unfold MessageQueue.enqueue
    dsimp only
    exact qinv_enqueueRest q s _ ma g c o n h (Or.inl rfl)
  | other =>
    unfold MessageQueue.enqueue
    dsimp only
    exact qinv_enqueueRest q s _ ma g c o n h (Or.inl rfl)

/-- `answerSends` distributes over concatenation of outputs. -/
theorem answerSends_append (q : String) (a b : List Send) :
    MessageQueue.answerSends q (a ++ b) =
      MessageQueue.answerSends q a + MessageQueue.answerSends q b := by
  unfold MessageQueue.answerSends
  exact List.countP_append _ a b

/-- `answerSends` of a single transmission. -/
theorem answerSends_singleton (q : String) (sd : Send) :
    MessageQueue.answerSends q [sd] =
      if (sd.2.mtype == MType.answer && sd.2.quizId == some q) = true
      then 1 else 0 := by
  unfold MessageQueue.answerSends
  simp [List.countP_cons]

/-- The per-quiz invariant holds in the fresh queue. -/
theorem qinv_init (q : String) : QInv q MessageQueue.State.init 0 := by
  refine ⟨List.nodup_nil, Nat.zero_le 1, Nat.zero_le 1, ?_, ?_⟩
  · intro hge
    exact (Nat.not_succ_le_zero 0 hge).elim
  · intro hge
    exact (Nat.not_succ_le_zero 0 hge).elim

/-- The per-quiz invariant is preserved by one retry-sweep body. -/
theorem qinv_sweepBody (q : String) (s : MessageQueue.State) (id : String)
    (c o : Bool) (n : Nat) (h : QInv q s n) :
    QInv q (MessageQueue.sweepBody s id c o).1
      (n + MessageQueue.answerSends q
        (MessageQueue.sweepBody s id c o).2) := by
  have h0 : MessageQueue.answerSends q ([] : List Send) = 0 := rfl
  unfold MessageQueue.sweepBody
  rcases hm : mapGet s.queue id with _ | m
  · dsimp only
    rw [h0]
    exact h
  · dsimp only
    split
    · rw [h0]
      exact h
    split
    · rw [h0]
      exact qinv_mono q n h (mapDel_sublist _ _) rfl
    split
    · rw [h0]
      exact qinv_mono q n h (mapDel_sublist _ _) rfl
    · dsimp only
      exact qinv_trySend q s id c o n h

/-- The per-quiz invariant is preserved by the sweep over a list of ids. -/
theorem qinv_sweepIds (q : String) (ids : List String)
    (s : MessageQueue.State) (c : Bool) (ok : String → Bool) (n : Nat)
    (h : QInv q s n) :
    QInv q (MessageQueue.sweepIds s ids c ok).1
      (n + MessageQueue.answerSends q
        (MessageQueue.sweepIds s ids c ok).2) := by
  induction ids generalizing s n with
  | nil =>
    have h0 : MessageQueue.answerSends q ([] : List Send) = 0 := rfl
    unfold MessageQueue.sweepIds
    dsimp only
    rw [h0]
    exact h
  | cons id rest ih =>
    unfold MessageQueue.sweepIds
    dsimp only
    rw [answerSends_append, ← Nat.add_assoc]
    exact ih _ _ (qinv_sweepBody q s id c (ok id) n h)

/-- The per-quiz invariant is preserved by one tick of the retry timer. -/
theorem qinv_retrySweep (q : String) (s : MessageQueue.State) (c : Bool)
    (ok : String → Bool) (n : Nat) (h : QInv q s n) :
    QInv q (MessageQueue.retrySweep s c ok).1
      (n + MessageQueue.answerSends q
        (MessageQueue.retrySweep s c ok).2) := by
  have h0 : MessageQueue.answerSends q ([] : List Send) = 0 := rfl
  unfold MessageQueue.retrySweep
  split
  · exact qinv_sweepIds q _ s c ok n h
  · dsimp only
    rw [h0]
    exact h

/-- The per-quiz invariant is preserved by every queue operation. -/
theorem qinv_step (q : String) (s : MessageQueue.State)
    (e : MessageQueue.Event) (n : Nat) (h : QInv q s n) :
    QInv q (MessageQueue.step s e).1
      (n + MessageQueue.answerSends q (MessageQueue.step s e).2) := by
  have h0 : MessageQueue.answerSends q ([] : List Send) = 0 := rfl
  cases e with
  | enq m ma g c ok =>
    unfold MessageQueue.step
    dsimp only
    exact qinv_enqueue q s m ma g c ok n h
  | send id c ok =>
    unfold MessageQueue.step
    dsimp only
    exact qinv_trySend q s id c ok n h
  | sweep c ok =>
    unfold MessageQueue.step
    dsimp only
    exact qinv_retrySweep q s c ok n h
  | timeout id msg =>
    unfold MessageQueue.step
    dsimp only
    rw [h0]
    exact qinv_ackTimeout q s id msg n h
  | ackev id =>
    unfold MessageQueue.step
    dsimp only
    rw [h0]
    exact qinv_acknowledge q s id n h

/-- The per-quiz invariant is preserved by a whole trace, counting every
transmission the trace performs. -/
theorem qinv_run (q : String) (es : List MessageQueue.Event)
    (s : MessageQueue.State) (n : Nat) (h : QInv q s n) :
    QInv q (MessageQueue.run s es).1
      (n + MessageQueue.answerSends q (MessageQueue.run s es).2) := by
  induction es generalizing s n with
  | nil =>
    have h0 : MessageQueue.answerSends q ([] : List Send) = 0 := rfl
    unfold MessageQueue.run
    dsimp only
    rw [h0]
    exact h
  | cons e rest ih =>
    unfold MessageQueue.run
    dsimp only
    rw [answerSends_append, ← Nat.add_assoc]
    exact ih _ _ (qinv_step q s e n h)

/-- When the quiz is already completed, `trySend` transmits no answer for
it (the `answerBlocked` guard). -/
theorem trySend_completed_no_send (q : String) (s : MessageQueue.State)
    (id : String) (c o : Bool) (h : q ∈ s.completedQuizzes) :
    MessageQueue.answerSends q (MessageQueue.trySend s id c o).2.1 = 0 := by
  rcases trySend_cases s id c o with ⟨_, hout⟩ | ⟨m, hm, hcond, _, hout⟩
  · rw [hout]
    rfl
  · rcases hout with hout | hout
    · rw [hout]
      rfl
    · rw [hout, answerSends_singleton, if_neg]
      intro hcnt
      simp only [Bool.and_eq_true, beq_iff_eq] at hcnt
      exact (hcond q hcnt.1 hcnt.2).1 h

/-- The sweep body never changes `completedQuizzes`. -/
theorem sweepBody_completed_eq (s : MessageQueue.State) (id : String)
    (c o : Bool) :
    (MessageQueue.sweepBody s id c o).1.completedQuizzes =
      s.completedQuizzes := by
  unfold MessageQueue.sweepBody
  rcases hm : mapGet s.queue id with _ | m
  · rfl
  · dsimp only
    split
    · rfl
    split
    · rfl
    split
    · rfl
    · dsimp only
      exact (trySend_fields_eq s id c o).2

/-- When the quiz is already completed, the sweep body transmits no answer
for it. -/
theorem sweepBody_completed_no_send (q : String) (s : MessageQueue.State)
    (id : String) (c o : Bool) (h : q ∈ s.completedQuizzes) :
    MessageQueue.answerSends q (MessageQueue.sweepBody s id c o).2 = 0 := by
  unfold MessageQueue.sweepBody
  rcases hm : mapGet s.queue id with _ | m
  · rfl
  · dsimp only
    split
    · rfl
    split
    · rfl
    split
    · rfl
    · dsimp only
      exact trySend_completed_no_send q s id c o h

/-- When the quiz is already completed, the sweep over any id list transmits
no answer for it and keeps `completedQuizzes`. -/
theorem sweepIds_completed_no_send (q : String) (ids : List String)
    (s : MessageQueue.State) (c : Bool) (ok : String → Bool)
    (h : q ∈ s.completedQuizzes) :
    MessageQueue.answerSends q (MessageQueue.sweepIds s ids c ok).2 = 0 ∧
    (MessageQueue.sweepIds s ids c ok).1.completedQuizzes =
      s.completedQuizzes := by
  induction ids generalizing s with
  | nil => exact ⟨rfl, rfl⟩
  | cons id rest ih =>
    unfold MessageQueue.sweepIds
    dsimp only
    have e1 := sweepBody_completed_eq s id c (ok id)
    have h1 : q ∈ (MessageQueue.sweepBody s id c
        (ok id)).1.completedQuizzes := by
      rw [e1]
      exact h
    obtain ⟨ha, hb⟩ := ih _ h1
    refine ⟨?_, by rw [hb, e1]⟩
    rw [answerSends_append, ha,
      sweepBody_completed_no_send q s id c (ok id) h]

/-- When the quiz is already completed, the tail of `enqueue` transmits no
answer for it. -/
theorem enqueueRest_completed_no_send (q : String)
    (s1 : MessageQueue.State) (m : Msg) (ma : Nat) (g : String)
    (c o : Bool) (h : q ∈ s1.completedQuizzes) :
    MessageQueue.answerSends q
      (MessageQueue.enqueueRest s1 m ma g c o).2.1 = 0 := by
  unfold MessageQueue.enqueueRest
  rcases hmid : m.messageId with _ | mid
  · dsimp only
    exact trySend_completed_no_send q _ g c o h
  · dsimp only
    split
    · rfl
    · exact trySend_completed_no_send q _ g c o h

/-- When the quiz is already completed, `enqueue` transmits no answer for
it: an answer for a completed quiz is refused outright, and anything else
that is transmitted is not an answer for `q`. -/
theorem enqueue_completed_no_send (q : String) (s : MessageQueue.State)
    (m : Msg) (ma : Nat) (g : String) (c o : Bool)
    (h : q ∈ s.completedQuizzes) :
    MessageQueue.answerSends q (MessageQueue.enqueue s m ma g c o).2.1
      = 0 := by
  obtain ⟨mt, mq, mid⟩ := m
  unfold MessageQueue.enqueue
  cases mt with
  | answer =>
    cases mq with
    | none =>
      dsimp only
      exact enqueueRest_completed_no_send q s _ ma g c o h
    | some qz =>
      dsimp only
      by_cases hc1 : qz ∈ s.completedQuizzes
      · rw [if_pos hc1]
        rfl
      · rw [if_neg hc1]
        by_cases hc2 : qz ∈ s.submittedAnswers
        · rw [if_pos hc2]
          rfl
        · rw [if_neg hc2]
          dsimp only
          exact enqueueRest_completed_no_send q _ _ ma g c o h
  | quiz =>
    dsimp only
    exact enqueueRest_completed_no_send q s _ ma g c o h
  | ack =>
    dsimp only
    exact enqueueRest_completed_no_send q s _ ma g c o h
  | heartbeat =>
    dsimp only
    exact enqueueRest_completed_no_send q s _ ma g c o h
  | other =>
    dsimp only
    exact enqueueRest_completed_no_send q s _ ma g c o h

/-- When the quiz is already completed, no queue operation transmits an
answer for it. -/
theorem step_completed_no_send (q : String) (s : MessageQueue.State)
    (e : MessageQueue.Event) (h : q ∈ s.completedQuizzes) :
    MessageQueue.answerSends q (MessageQueue.step s e).2 = 0 := by
  cases e with
  | enq m ma g c ok =>
    unfold MessageQueue.step
    dsimp only
    exact enqueue_completed_no_send q s m ma g c ok h
  | send id c ok =>
    unfold MessageQueue.step
    dsimp only
    exact trySend_completed_no_send q s id c ok h
  | sweep c ok =>
    unfold MessageQueue.step MessageQueue.retrySweep
    dsimp only
    split
    · exact (sweepIds_completed_no_send q _ s c ok h).1
    · rfl
  | timeout id msg => rfl
  | ackev id => rfl

/-- Every transmission of `trySend` carries the id it was called with. -/
theorem trySend_sends_key (s : MessageQueue.State) (id : String)
    (c o : Bool) : ∀ sd ∈ (MessageQueue.trySend s id c o).2.1, sd.1 = id := by
  rcases trySend_cases s id c o with ⟨_, hout⟩ | ⟨m, _, _, _, hout | hout⟩
  · rw [hout]
    intro sd hsd
    exact absurd hsd (List.not_mem_nil sd)
  · rw [hout]
    intro sd hsd
    exact absurd hsd (List.not_mem_nil sd)
  · rw [hout]
    intro sd hsd
    rw [List.mem_singleton.mp hsd]

/-- Every transmission of the sweep body carries the swept id. -/
theorem sweepBody_sends_key (s : MessageQueue.State) (id : String)
    (c o : Bool) : ∀ sd ∈ (MessageQueue.sweepBody s id c o).2, sd.1 = id := by
  unfold MessageQueue.sweepBody
  rcases hm : mapGet s.queue id with _ | m
  · intro sd hsd
    exact absurd hsd (List.not_mem_nil sd)
  · dsimp only
    split
    · intro sd hsd
      exact absurd hsd (List.not_mem_nil sd)
    split
    · intro sd hsd
      exact absurd hsd (List.not_mem_nil sd)
    split
    · intro sd hsd
      exact absurd hsd (List.not_mem_nil sd)
    · dsimp only
      exact trySend_sends_key s id c o

/-- Every transmission of the sweep over `ids` carries one of those ids. -/
theorem sweepIds_sends_mem (ids : List String) (s : MessageQueue.State)
    (c : Bool) (ok : String → Bool) :
    ∀ sd ∈ (MessageQueue.sweepIds s ids c ok).2, sd.1 ∈ ids := by
  induction ids generalizing s with
  | nil =>
    intro sd hsd
    exact absurd hsd (List.not_mem_nil sd)
  | cons id rest ih =>
    intro sd hsd
    unfold MessageQueue.sweepIds at hsd
    dsimp only at hsd
    rcases List.mem_append.mp hsd with h | h
    · rw [sweepBody_sends_key s id c (ok id) sd h]
      exact List.mem_cons_self id rest
    · exact List.mem_cons_of_mem id (ih _ sd h)

/-- Every transmission of a retry sweep carries a key that was in the queue
when the sweep started. -/
theorem retrySweep_sends_key (s : MessageQueue.State) (c : Bool)
    (ok : String → Bool) :
    ∀ sd ∈ (MessageQueue.retrySweep s c ok).2,
      sd.1 ∈ s.queue.map Prod.fst := by
  unfold MessageQueue.retrySweep
  split
  · intro sd hsd
    exact sweepIds_sends_mem _ s c ok sd hsd
  · intro sd hsd
    exact absurd hsd (List.not_mem_nil sd)

/-- `acknowledge` leaves no queue entry and no pending mark under the
resolved queue id. -/
theorem acknowledge_removes_resolved (s : MessageQueue.State)
    (id : String) :
    mapGet (MessageQueue.acknowledge s id).queue
      (MessageQueue.resolveId s id) = none ∧
    MessageQueue.resolveId s id ∉
      (MessageQueue.acknowledge s id).pendingMessages := by
  unfold MessageQueue.acknowledge
  dsimp only
  exact ⟨mapGet_mapDel_self _ _, not_mem_setDel _ _⟩

/-- Acknowledging an id whose queue entry is gone, whose pending mark is
gone and whose ids are both already recorded (within the cap) changes
nothing. -/
theorem acknowledge_noop (t : MessageQueue.State) (id : String)
    (hget : mapGet t.queue (MessageQueue.resolveId t id) = none)
    (hpend : MessageQueue.resolveId t id ∉ t.pendingMessages)
    (ha1 : id ∈ t.acknowledgedMessages)
    (ha2 : MessageQueue.resolveId t id ∈ t.acknowledgedMessages)
    (hlen : t.acknowledgedMessages.length ≤ 100) :
    (MessageQueue.acknowledge t id).queue = t.queue ∧
    (MessageQueue.acknowledge t id).pendingMessages = t.pendingMessages ∧
    (MessageQueue.acknowledge t id).acknowledgedMessages =
      t.acknowledgedMessages := by
  unfold MessageQueue.acknowledge
  dsimp only
  rw [hget]
  dsimp only
  rw [addOnce_of_mem ha1, addOnce_of_mem ha2]
  rw [if_neg (by omega)]
  exact ⟨mapDel_of_get_none hget, setDel_of_not_mem hpend, rfl⟩

/-- Elements of the appended tail survive dropping the first 50 entries as
long as the front part alone holds at least 50. -/
theorem mem_drop_append {x : String} (l0 l1 : List String) (hx : x ∈ l1)
    (hlen : 50 ≤ l0.length) : x ∈ (l0 ++ l1).drop 50 := by
  rw [List.drop_append_of_le_length hlen]
  exact List.mem_append_right _ hx

/-- Re-enqueueing a message whose caller id was already acknowledged is
refused by the tail of `enqueue`: no transmission, queue unchanged. -/
theorem enqueueRest_acked_refuses (t1 : MessageQueue.State) (m : Msg)
    (ma : Nat) (g : String) (c o : Bool) (id : String)
    (hmid : m.messageId = some id)
    (hack : id ∈ t1.acknowledgedMessages) :
    (MessageQueue.enqueueRest t1 m ma g c o).2.1 = [] ∧
    (MessageQueue.enqueueRest t1 m ma g c o).1.queue = t1.queue := by
  unfold MessageQueue.enqueueRest
  rw [hmid]
  dsimp only
  rw [if_pos hack]
  exact ⟨rfl, rfl⟩

/-- `enqueue` either refuses outright or runs `enqueueRest` on a state
whose queue is a (possibly purged) sublist of the original and whose
acknowledged set is unchanged. -/
theorem enqueue_decomp (s : MessageQueue.State) (m : Msg) (ma : Nat)
    (g : String) (c o : Bool) :
    MessageQueue.enqueue s m ma g c o = (s, [], "") ∨
    ∃ s1 : MessageQueue.State,
      MessageQueue.enqueue s m ma g c o =
        MessageQueue.enqueueRest s1 m ma g c o ∧
      s1.queue.Sublist s.queue ∧
      s1.acknowledgedMessages = s.acknowledgedMessages := by
  obtain ⟨mt, mq, mid2⟩ := m
  unfold MessageQueue.enqueue
  cases mt with
  | answer =>
    cases mq with
    | none =>
      dsimp only
      exact Or.inr ⟨s, rfl, List.Sublist.refl _, rfl⟩
    | some qz =>
      dsimp only
      by_cases hc1 : qz ∈ s.completedQuizzes
      · rw [if_pos hc1]
        exact Or.inl rfl
      · rw [if_neg hc1]
        by_cases hc2 : qz ∈ s.submittedAnswers
        · rw [if_pos hc2]
          exact Or.inl rfl
        · rw [if_neg hc2]
          dsimp only
          exact Or.inr ⟨_, rfl, List.filter_sublist _, rfl⟩
  | quiz =>
    dsimp only
    exact Or.inr ⟨s, rfl, List.Sublist.refl _, rfl⟩
  | ack =>
    dsimp only
    exact Or.inr ⟨s, rfl, List.Sublist.refl _, rfl⟩
  | heartbeat =>
    dsimp only
    exact Or.inr ⟨s, rfl, List.Sublist.refl _, rfl⟩
  | other =>
    dsimp only
    exact Or.inr ⟨s, rfl, List.Sublist.refl _, rfl⟩

/-- Re-enqueueing a message whose caller id was already acknowledged is
refused: no transmission, and the queue at most shrinks (the answer purge
may still drop entries before the refusal). -/
theorem enqueue_acked_refuses (t : MessageQueue.State) (m : Msg)
    (ma : Nat) (g : String) (c o : Bool) (id : String)
    (hmid : m.messageId = some id)
    (hack : id ∈ t.acknowledgedMessages) :
    (MessageQueue.enqueue t m ma g c o).2.1 = [] ∧
    (MessageQueue.enqueue t m ma g c o).1.queue.Sublist t.queue := by
  rcases enqueue_decomp t m ma g c o with h | ⟨s1, heq, hsub, hackeq⟩
  · rw [h]
    exact ⟨rfl, List.Sublist.refl _⟩
  · have hack1 : id ∈ s1.acknowledgedMessages := by
      rw [hackeq]
      exact hack
    obtain ⟨h1, h2⟩ := enqueueRest_acked_refuses s1 m ma g c o id hmid hack1
    rw [heq]
    refine ⟨h1, ?_⟩
    rw [h2]
    exact hsub

/-- `trySend` on an acknowledged id only purges the entry and reports
success; nothing is transmitted. -/
theorem trySend_acked (t : MessageQueue.State) (x : String) (c o : Bool)
    (h : x ∈ t.acknowledgedMessages) :
    MessageQueue.trySend t x c o =
      ({ t with queue := mapDel t.queue x }, [], true) := by
  unfold MessageQueue.trySend
  rw [if_pos h]

/-- Bounds invariant for the adaptive polling interval, used for C6. -/
theorem pollRun_interval_bounds (bs : List Bool) :
    ∀ s : PollBackoff, 1000 ≤ s.pollingInterval → s.pollingInterval ≤ 5000 →
      1000 ≤ (pollRun s bs).pollingInterval ∧
        (pollRun s bs).pollingInterval ≤ 5000 := by
  induction bs with
  | nil => exact fun s h1 h2 => ⟨h1, h2⟩
  | cons b bs ih =>
    intro s h1 h2
    refine ih (pollTick s b) ?_ ?_
    · unfold pollTick
      split
      · simp only [le_min_iff]
        constructor
        · nlinarith
        · norm_num
      · split <;> simpa
    · unfold pollTick
      split
      · exact min_le_right _ _
      · split <;> simpa

/-- Claim C6 (corrected): the polling interval starts at 1000 ms; once the
failure counter reaches 5, the next `pollFunction` invocation multiplies the
interval by 1.5 capped at 5000 ms and resets the failure counter fully to 0
(not partially); a successful poll resets the counter to 0 but leaves the
interval unchanged (it is never lowered back toward the baseline); over any
run the interval stays within [1000, 5000], and no single tick ever
decreases it. -/
theorem C6_poll_backoff (s : PollBackoff) (b : Bool) :
    PollBackoff.init.pollingInterval = 1000 ∧
    (5 ≤ s.consecutiveFailures →
      (pollTick s b).consecutiveFailures = 0 ∧
      (pollTick s b).pollingInterval =
        min (s.pollingInterval * (3 / 2)) 5000) ∧
    (s.consecutiveFailures < 5 →
      (pollTick s true).consecutiveFailures = 0 ∧
      (pollTick s true).pollingInterval = s.pollingInterval) ∧
    (1000 ≤ s.pollingInterval → s.pollingInterval ≤ 5000 →
      s.pollingInterval ≤ (pollTick s b).pollingInterval) ∧
    (∀ bs : List Bool,
      1000 ≤ (pollRun PollBackoff.init bs).pollingInterval ∧
      (pollRun PollBackoff.init bs).pollingInterval ≤ 5000) := by
  refine ⟨rfl, ?_, ?_, ?_, ?_⟩
  · intro h
    simp [pollTick, h]
  · intro h
    have h5 : ¬ 5 ≤ s.consecutiveFailures := by omega
    simp [pollTick, h5]
  · intro h1 h2
    unfold pollTick
    split
    · simp only [le_min_iff]
      constructor
      · nlinarith
      · exact h2
    · split <;> simp
  · intro bs
    exact pollRun_interval_bounds bs PollBackoff.init
      (by norm_num [PollBackoff.init]) (by norm_num [PollBackoff.init])

/-- Witness for C6: at a concrete saturated state the backoff tick grows the
interval and clears the counter, and a successful tick keeps the interval. -/
theorem C6_poll_backoff_witness :
    (pollTick ⟨5, 1000⟩ false).consecutiveFailures = 0 ∧
    (pollTick ⟨5, 1000⟩ false).pollingInterval = min (1000 * (3 / 2)) 5000 :=
  (C6_poll_backoff ⟨5, 1000⟩ false).2.1 (by norm_num)

/-- Counterexample for C6 as stated: after five consecutive failures the
backoff tick resets the counter fully to 0 (the claim says it is only
partially reset), and a subsequent successful poll leaves the interval at
1500 ms (the claim says the interval resets toward the 1000 ms baseline). -/
theorem C6_counterexample :
    ¬ (0 < (pollRun PollBackoff.init
        [false, false, false, false, false, false]).consecutiveFailures) ∧
    ¬ ((pollTick (pollRun PollBackoff.init
          [false, false, false, false, false, false]) true).pollingInterval <
        (pollRun PollBackoff.init
          [false, false, false, false, false, false]).pollingInterval) ∧
    (pollRun PollBackoff.init
      [false, false, false, false, false, false]).pollingInterval = 1500 := by
  norm_num [pollRun, pollTick, PollBackoff.init]

/-- `acknowledge` only ever changes the acknowledged set by recording the two
ids and applying the overflow eviction. -/
theorem acknowledge_acked_eq (s : MessageQueue.State) (id : String) :
    (MessageQueue.acknowledge s id).acknowledgedMessages =
      (if 100 < (addOnce (addOnce s.acknowledgedMessages id)
          (MessageQueue.resolveId s id)).length then
        (addOnce (addOnce s.acknowledgedMessages id)
          (MessageQueue.resolveId s id)).drop 50
      else addOnce (addOnce s.acknowledgedMessages id)
        (MessageQueue.resolveId s id)) := by
  unfold MessageQueue.acknowledge
  dsimp only
  cases hm : mapGet s.queue (MessageQueue.resolveId s id) with
  | none => rfl
  | some m =>
    dsimp only
    cases hmt : m.msg.mtype <;> cases hq : m.msg.quizId <;> rfl

/-- Claim C7 (confirmed): the acknowledged-message set is bounded — after any
`acknowledge` call from a state within the 100-entry cap it still holds at
most 100 entries, and whenever recording the two ids pushes it past the cap,
exactly the 50 earliest-inserted entries are evicted (the result is the
insertion-ordered list with its first 50 elements dropped, so the newest
entries are retained). -/
theorem C7_acked_bounded (s : MessageQueue.State) (id : String)
    (h : s.acknowledgedMessages.length ≤ 100) :
    (MessageQueue.acknowledge s id).acknowledgedMessages.length ≤ 100 ∧
    (100 < (addOnce (addOnce s.acknowledgedMessages id)
        (MessageQueue.resolveId s id)).length →
      (MessageQueue.acknowledge s id).acknowledgedMessages =
        (addOnce (addOnce s.acknowledgedMessages id)
          (MessageQueue.resolveId s id)).drop 50 ∧
      (MessageQueue.acknowledge s id).acknowledgedMessages.length + 50 =
        (addOnce (addOnce s.acknowledgedMessages id)
          (MessageQueue.resolveId s id)).length) := by
  have hE := acknowledge_acked_eq s id
  have h1 : (addOnce (addOnce s.acknowledgedMessages id)
      (MessageQueue.resolveId s id)).length ≤
      s.acknowledgedMessages.length + 2 := by
    have ha := length_addOnce_le s.acknowledgedMessages id
    have hb := length_addOnce_le (addOnce s.acknowledgedMessages id)
      (MessageQueue.resolveId s id)
    omega
  constructor
  · rw [hE]
    split
    · rename_i hgt
      rw [List.length_drop]
      omega
    · rename_i hle
      omega
  · intro hgt
    rw [hE, if_pos hgt]
    refine ⟨rfl, ?_⟩
    rw [List.length_drop]
    omega

/-- Witness for C7 at the empty queue state. -/
theorem C7_acked_bounded_witness :
    (MessageQueue.acknowledge MessageQueue.State.init "a").acknowledgedMessages.length ≤ 100 :=
  (C7_acked_bounded MessageQueue.State.init "a" (by decide)).1

/-- Claim C8 (confirmed): with the channel open and no fresh response for
over 8 s, three consecutive heartbeat ticks drive `heartbeatStatus` to
`disconnected` with the missed counter at 3 (and `connectionStatus` not yet
demoted at that threshold); a subsequently received heartbeat message resets
the missed counter to 0 and restores `heartbeatStatus` to `connected`,
overriding a `disconnected` connection-level status; in general any received
heartbeat clears the counter, and whenever the heartbeat status was not
already `connected` it restores both statuses. -/
theorem C8_heartbeat_monitor (s t1 t2 t3 : HBState) (td1 td2 td3 : Bool)
    (h : s.missedHeartbeats = 0)
    (h1 : t1 = hbTick s true true td1 false)
    (h2 : t2 = hbTick t1 true true td2 false)
    (h3 : t3 = hbTick t2 true true td3 false) :
    t3.heartbeatStatus = HBStatus.disconnected ∧
    t3.missedHeartbeats = 3 ∧
    t3.connectionStatus = s.connectionStatus ∧
    (hbReceive t3).missedHeartbeats = 0 ∧
    (hbReceive t3).heartbeatStatus = HBStatus.connected ∧
    (hbReceive t3).connectionStatus = ConnStatus.connected ∧
    (∀ u : HBState, (hbReceive u).missedHeartbeats = 0 ∧
      (u.heartbeatStatus ≠ HBStatus.connected →
        (hbReceive u).heartbeatStatus = HBStatus.connected ∧
        (hbReceive u).connectionStatus = ConnStatus.connected)) := by
  have e1 : t1 = ⟨1, HBStatus.reconnecting, s.connectionStatus⟩ := by
    rw [h1]
    simp [hbTick, h]
  have e2 : t2 = ⟨2, HBStatus.reconnecting, s.connectionStatus⟩ := by
    rw [h2, e1]
    simp [hbTick]
  have e3 : t3 = ⟨3, HBStatus.disconnected, s.connectionStatus⟩ := by
    rw [h3, e2]
    simp [hbTick]
  have hrecv : ∀ u : HBState, (hbReceive u).missedHeartbeats = 0 ∧
      (u.heartbeatStatus ≠ HBStatus.connected →
        (hbReceive u).heartbeatStatus = HBStatus.connected ∧
        (hbReceive u).connectionStatus = ConnStatus.connected) := by
    intro u
    constructor
    · unfold hbReceive
      dsimp only
      split <;> rfl
    · intro hu
      unfold hbReceive
      dsimp only
      rw [if_pos hu]
      refine ⟨rfl, ?_⟩
      split
      · rfl
      · rename_i hc
        simpa using hc
  refine ⟨by rw [e3], by rw [e3], by rw [e3], ?_, ?_, ?_, hrecv⟩
  · exact (hrecv t3).1
  · exact ((hrecv t3).2 (by rw [e3]; simp)).1
  · exact ((hrecv t3).2 (by rw [e3]; simp)).2

/-- Witness for C8: a concrete run from a connected state whose
connection-level status is `disconnected`. -/
theorem C8_heartbeat_monitor_witness :
    (hbTick (hbTick (hbTick ⟨0, HBStatus.connected, ConnStatus.disconnected⟩ true true false false) true true false false) true true false false).heartbeatStatus = HBStatus.disconnected ∧
    (hbReceive (hbTick (hbTick (hbTick ⟨0, HBStatus.connected, ConnStatus.disconnected⟩ true true false false) true true false false) true true false false)).connectionStatus = ConnStatus.connected := by
  have h := C8_heartbeat_monitor
    ⟨0, HBStatus.connected, ConnStatus.disconnected⟩ _ _ _ false false false
    rfl rfl rfl rfl
  exact ⟨h.1, h.2.2.2.2.2.1⟩

/-- Claim C9 (corrected): on receipt of any heartbeat — probe or tagged
response alike — the participant handler immediately transmits exactly one
heartbeat reply directly on the channel, tagged `isResponse := true`;
the creator handler transmits nothing in response to a heartbeat.  Hence a
creator probe triggers exactly one participant echo and that echo triggers
no further heartbeat transmission — but only because the creator side never
echoes at all: the `isResponse` tag is never inspected by either receiver,
and the participant would re-echo a tagged response (see the
counterexample). -/
theorem C9_heartbeat_echo (s : ParticipantUI) (t : CreatorUI) (m : PageMsg)
    (chOpen chOpen2 : Bool) (hm : m.mtype = MType.heartbeat) :
    (participantOnMessage s m chOpen).2 =
      [{ mtype := MType.heartbeat, isResponse := true }] ∧
    (creatorOnMessage t m chOpen2).2 = [] := by
  obtain ⟨mt, mmid, misr, mpid, mpay⟩ := m
  simp only at hm
  subst hm
  constructor
  · unfold participantOnMessage
    cases mmid with
    | none => simp
    | some mid =>
      by_cases hmem : mid ∈ s.processedMessageIds <;> simp [hmem]
  · unfold creatorOnMessage
    cases mmid with
    | none => simp
    | some mid =>
      by_cases hmem : mid ∈ t.processedMessageIds <;> simp [hmem]

/-- Witness for C9 at fresh UI states. -/
theorem C9_heartbeat_echo_witness :
    (participantOnMessage ParticipantUI.init
      { mtype := MType.heartbeat } true).2 =
      [{ mtype := MType.heartbeat, isResponse := true }] ∧
    (creatorOnMessage CreatorUI.init { mtype := MType.heartbeat } true).2
      = [] :=
  C9_heartbeat_echo ParticipantUI.init CreatorUI.init
    { mtype := MType.heartbeat } true true rfl

/-- Counterexample for C9 as stated: (1) the participant, on receiving a
probe-response (a heartbeat already tagged `isResponse := true`), echoes yet
another heartbeat response — the claim says the tag prevents the receiving
peer from ever echoing a probe-response back again; (2) the creator, on
receiving an untagged liveness probe, transmits nothing at all — the claim
says a peer receiving a probe immediately echoes a probe-response. -/
theorem C9_counterexample :
    (participantOnMessage ParticipantUI.init
        { mtype := MType.heartbeat, isResponse := true } true).2.countP
      (fun x => x.mtype == MType.heartbeat) = 1 ∧
    (creatorOnMessage CreatorUI.init
      { mtype := MType.heartbeat, isResponse := false } true).2 = [] := by
  decide

/-- Claim C4 (confirmed): for an inbound non-`ack` envelope carrying a fresh
`messageId`, the first receipt takes the fresh-message branch (where the
application event for a newly seen message is emitted) and transmits an
acknowledgment only when the kind requires reliability (`quiz`/`answer`) and
the channel is open; the second receipt of the same envelope takes neither
branch: it is not processed again and no second acknowledgment is sent.
The acknowledgment is a direct channel transmission: the delivery queue is
untouched by both receipts. -/
theorem C4_inbound_dedup (processed : List String)
    (qs : MessageQueue.State) (m : InMsg) (mid : String) (chOpen : Bool)
    (r1 r2 : InResult)
    (hmid : m.messageId = some mid) (hkind : m.mtype ≠ MType.ack)
    (hfresh : mid ∉ processed)
    (h1 : r1 = handleInbound processed qs m chOpen)
    (h2 : r2 = handleInbound r1.processedMessageIds r1.queueState m chOpen) :
    r1.freshlyProcessed = true ∧ r2.freshlyProcessed = false ∧
    r1.processedMessageIds = processed ++ [mid] ∧
    r2.processedMessageIds = processed ++ [mid] ∧
    (r1.ackSent = true →
      (m.mtype = MType.quiz ∨ m.mtype = MType.answer) ∧ chOpen = true) ∧
    r2.ackSent = false ∧
    r1.queueState = qs ∧ r2.queueState = qs := by
  obtain ⟨mt, mmid⟩ := m
  simp only at hmid hkind ⊢
  subst hmid
  have e1 : r1 = ⟨processed ++ [mid], qs,
      decide ((mt = MType.quiz ∨ mt = MType.answer) ∧ chOpen = true),
      true⟩ := by
    rw [h1]
    cases mt <;> simp_all [handleInbound]
  have e2 : r2 = ⟨processed ++ [mid], qs, false, false⟩ := by
    rw [h2, e1]
    cases mt <;> simp_all [handleInbound]
  refine ⟨by rw [e1], by rw [e2], by rw [e1], by rw [e2], ?_,
    by rw [e2], by rw [e1], by rw [e2]⟩
  intro hack
  rw [e1] at hack
  simpa using of_decide_eq_true hack

/-- Witness for C4: a fresh quiz envelope received twice on an open
channel. -/
theorem C4_inbound_dedup_witness :
    (handleInbound [] MessageQueue.State.init ⟨MType.quiz, some "m1"⟩ true).freshlyProcessed = true ∧
    (handleInbound (handleInbound [] MessageQueue.State.init ⟨MType.quiz, some "m1"⟩ true).processedMessageIds (handleInbound [] MessageQueue.State.init ⟨MType.quiz, some "m1"⟩ true).queueState ⟨MType.quiz, some "m1"⟩ true).ackSent = false := by
  have h := C4_inbound_dedup [] MessageQueue.State.init
    ⟨MType.quiz, some "m1"⟩ "m1" true _ _
    rfl (by decide) (by simp) rfl rfl
  exact ⟨h.1, h.2.2.2.2.2.1⟩

/-- While no remote description is set, a poll iteration applies nothing,
leaves the description flag unset, extends the buffer only at its end, and
buffers every not-yet-processed candidate it receives. -/
theorem handleCandidates_noDesc (ice : List String) :
    ∀ (s : PollIce) (ok : String → Bool), s.remoteDescSet = false →
      (handleCandidates s ice ok).2 = [] ∧
      (handleCandidates s ice ok).1.remoteDescSet = false ∧
      (∃ t, (handleCandidates s ice ok).1.pending = s.pending ++ t) ∧
      (∀ x ∈ ice, x ∉ s.processed →
        x ∈ (handleCandidates s ice ok).1.pending) := by
  induction ice with
  | nil =>
    intro s ok h
    exact ⟨rfl, h, ⟨[], by simp [handleCandidates]⟩, by simp⟩
  | cons c0 rest ih =>
    intro s ok h
    by_cases hc : c0 ∈ s.processed
    · have e1 : handleCandidate s c0 (ok c0) = (s, []) := by
        simp [handleCandidate, hc]
      obtain ⟨ha, hb, ⟨t, ht⟩, hd⟩ := ih s ok h
      refine ⟨?_, ?_, ⟨t, ?_⟩, ?_⟩
      · simp [handleCandidates, e1, ha]
      · simp [handleCandidates, e1, hb]
      · simp [handleCandidates, e1, ht]
      · intro x hx hxp
        rcases List.mem_cons.mp hx with hx0 | hx0
        · exact absurd (hx0 ▸ hc) hxp
        · simpa [handleCandidates, e1] using hd x hx0 hxp
    · have e1 : handleCandidate s c0 (ok c0) =
          (⟨s.processed ++ [c0], s.pending ++ [c0], s.remoteDescSet⟩, []) := by
        simp [handleCandidate, hc, h]
      have h1 : ((⟨s.processed ++ [c0], s.pending ++ [c0],
          s.remoteDescSet⟩ : PollIce)).remoteDescSet = false := h
      obtain ⟨ha, hb, ⟨t, ht⟩, hd⟩ := ih _ ok h1
      refine ⟨?_, ?_, ⟨[c0] ++ t, ?_⟩, ?_⟩
      · simp [handleCandidates, e1, ha]
      · simp [handleCandidates, e1, hb]
      · simp only [handleCandidates, e1] at ht ⊢
        simpa using ht
      · intro x hx hxp
        rcases List.mem_cons.mp hx with hx0 | hx0
        · subst hx0
          simp only [handleCandidates, e1]
          rw [ht]
          simp
        · by_cases hx2 : x ∈ s.processed ++ [c0]
          · have hx3 : x = c0 := by
              rcases List.mem_append.mp hx2 with h4 | h4
              · exact absurd h4 hxp
              · simpa using h4
            subst hx3
            simp only [handleCandidates, e1]
            rw [ht]
            simp
          · simpa [handleCandidates, e1] using hd x hx0 hx2

/-- Once the remote description is set, a poll iteration never touches the
buffer (nothing drains `pendingIceCandidates` outside the creator's
answer-processing step). -/
theorem handleCandidates_descSet (ice : List String) :
    ∀ (s : PollIce) (ok : String → Bool), s.remoteDescSet = true →
      (handleCandidates s ice ok).1.pending = s.pending ∧
      (handleCandidates s ice ok).1.remoteDescSet = true := by
  induction ice with
  | nil => exact fun s ok h => ⟨rfl, h⟩
  | cons c0 rest ih =>
    intro s ok h
    by_cases hc : c0 ∈ s.processed
    · have e1 : handleCandidate s c0 (ok c0) = (s, []) := by
        simp [handleCandidate, hc]
      obtain ⟨ha, hb⟩ := ih s ok h
      exact ⟨by simp [handleCandidates, e1, ha],
             by simp [handleCandidates, e1, hb]⟩
    · by_cases hok : ok c0 = true
      · have e1 : handleCandidate s c0 (ok c0) =
            ({ s with processed := s.processed ++ [c0] }, [c0]) := by
          simp [handleCandidate, hc, h, hok]
        obtain ⟨ha, hb⟩ := ih { s with processed := s.processed ++ [c0] } ok h
        exact ⟨by simp [handleCandidates, e1, ha],
               by simp [handleCandidates, e1, hb]⟩
      · have e1 : handleCandidate s c0 (ok c0) = (s, []) := by
          simp [handleCandidate, hc, h, hok]
        obtain ⟨ha, hb⟩ := ih s ok h
        exact ⟨by simp [handleCandidates, e1, ha],
               by simp [handleCandidates, e1, hb]⟩

theorem mem_foldl_addOnce_of_mem {l : List String} {x : String}
    (applied : List String) (h : x ∈ l) : x ∈ applied.foldl addOnce l := by
  induction applied generalizing l with
  | nil => exact h
  | cons a rest ih => exact ih (mem_addOnce_of_mem a h)

theorem iceInv_handleCandidate (c : String) (s : PollIce) (n : Nat)
    (c0 : String) (ok : Bool) (h : IceInv c s n) :
    IceInv c (handleCandidate s c0 ok).1
      (n + (handleCandidate s c0 ok).2.count c) := by
  obtain ⟨h1, h2, h3⟩ := h
  by_cases hc : c0 ∈ s.processed
  · have e1 : handleCandidate s c0 ok = (s, []) := by
      simp [handleCandidate, hc]
    rw [e1]
    exact ⟨by simpa using h1, h2, h3⟩
  · by_cases hdesc : s.remoteDescSet = true
    · by_cases hok : ok = true
      · have e1 : handleCandidate s c0 ok =
            (⟨s.processed ++ [c0], s.pending, s.remoteDescSet⟩, [c0]) := by
          simp [handleCandidate, hc, hdesc, hok]
        rw [e1]
        dsimp only
        by_cases hcc : c0 = c
        · have hcp : c ∉ s.processed := hcc ▸ hc
          have hnp : c ∉ s.pending := fun hm => hcp (h2 hm)
          have hn0 : n = 0 := by
            by_contra hn
            exact hcp (h3 (by omega))
          refine ⟨?_, ?_, ?_⟩
          · simp only [List.count_eq_zero.mpr hnp, hn0]
            simp [hcc]
          · intro hm
            exact absurd hm hnp
          · intro _
            simp [hcc]
        · have hone : List.count c [c0] = 0 :=
            List.count_eq_zero.mpr (by simp; exact fun e => hcc e.symm)
          refine ⟨?_, ?_, ?_⟩
          · simpa [hone] using h1
          · intro hm
            simp [h2 hm]
          · intro hn
            simp only [hone] at hn
            simp [h3 (by omega)]
      · have e1 : handleCandidate s c0 ok = (s, []) := by
          simp only [Bool.not_eq_true] at hok
          simp [handleCandidate, hc, hdesc, hok]
        rw [e1]
        exact ⟨by simpa using h1, h2, h3⟩
    · simp only [Bool.not_eq_true] at hdesc
      have e1 : handleCandidate s c0 ok =
          (⟨s.processed ++ [c0], s.pending ++ [c0], s.remoteDescSet⟩,
           []) := by
        simp [handleCandidate, hc, hdesc]
      rw [e1]
      dsimp only
      by_cases hcc : c0 = c
      · have hcp : c ∉ s.processed := hcc ▸ hc
        have hnp : c ∉ s.pending := fun hm => hcp (h2 hm)
        have hn0 : n = 0 := by
          by_contra hn
          exact hcp (h3 (by omega))
        refine ⟨?_, ?_, ?_⟩
        · simp only [List.count_append, List.count_eq_zero.mpr hnp, hn0]
          simp [hcc]
        · intro _
          simp [hcc]
        · intro _
          simp [hcc]
      · have hone : List.count c [c0] = 0 :=
          List.count_eq_zero.mpr (by simp; exact fun e => hcc e.symm)
        refine ⟨?_, ?_, ?_⟩
        · simpa [List.count_append, hone] using h1
        · intro hm
          rcases List.mem_append.mp hm with hm | hm
          · simp [h2 hm]
          · simp at hm
            exact absurd hm.symm hcc
        · intro hn
          simp [h3 (by simpa using hn)]

theorem iceInv_handleCandidates (c : String) (ice : List String) :
    ∀ (s : PollIce) (n : Nat) (ok : String → Bool), IceInv c s n →
      IceInv c (handleCandidates s ice ok).1
        (n + (handleCandidates s ice ok).2.count c) := by
  induction ice with
  | nil => exact fun s n ok h => by simpa [handleCandidates] using h
  | cons c0 rest ih =>
    intro s n ok h
    have h1 := iceInv_handleCandidate c s n c0 (ok c0) h
    have h2 := ih (handleCandidate s c0 (ok c0)).1
      (n + (handleCandidate s c0 (ok c0)).2.count c) ok h1
    simp only [handleCandidates]
    simpa [List.count_append, Nat.add_assoc] using h2

theorem iceInv_drainPending (c : String) (s : PollIce) (n : Nat)
    (ok : String → Bool) (h : IceInv c s n) :
    IceInv c (drainPending s ok).1 (n + (drainPending s ok).2.count c) := by
  obtain ⟨h1, h2, h3⟩ := h
  have e : drainPending s ok =
      (⟨(s.pending.filter ok).foldl addOnce s.processed, [],
        s.remoteDescSet⟩, s.pending.filter ok) := rfl
  rw [e]
  dsimp only
  have hfil : (s.pending.filter ok).count c ≤ s.pending.count c :=
    List.Sublist.count_le (List.filter_sublist _) c
  refine ⟨?_, ?_, ?_⟩
  · dsimp only
    simp only [List.count_nil]
    omega
  · intro hm
    simp at hm
  · intro hn
    rcases Nat.lt_or_ge 0 n with hpos | hzero
    · exact mem_foldl_addOnce_of_mem _ (h3 (by omega))
    · have hcnt : 1 ≤ (s.pending.filter ok).count c := by omega
      have hmem : c ∈ s.pending.filter ok := by
        by_contra hcm
        rw [List.count_eq_zero.mpr hcm] at hcnt
        omega
      exact mem_foldl_addOnce_of_mem _ (h2 (List.mem_of_mem_filter hmem))

theorem iceInv_creatorPart (c : String) (s : PollIce) (n : Nat)
    (p : PartUpdate) (ok : String → Bool) (h : IceInv c s n) :
    IceInv c (creatorPart s p ok).1
      (n + (creatorPart s p ok).2.count c) := by
  obtain ⟨pans, pice⟩ := p
  obtain ⟨pr, pe, rd⟩ := s
  cases pans with
  | none =>
    cases rd with
    | false => exact iceInv_handleCandidates c pice ⟨pr, pe, false⟩ n ok h
    | true => exact iceInv_handleCandidates c pice ⟨pr, pe, true⟩ n ok h
  | some setOk =>
    cases rd with
    | true => exact iceInv_handleCandidates c pice ⟨pr, pe, true⟩ n ok h
    | false =>
      cases setOk with
      | false => simpa [creatorPart] using h
      | true =>
        have hd := iceInv_drainPending c ⟨pr, pe, true⟩ n ok
          (show IceInv c ⟨pr, pe, true⟩ n from h)
        have hc2 := iceInv_handleCandidates c pice
          (drainPending ⟨pr, pe, true⟩ ok).1
          (n + (drainPending ⟨pr, pe, true⟩ ok).2.count c) ok hd
        show IceInv c
          (handleCandidates (drainPending ⟨pr, pe, true⟩ ok).1 pice ok).1
          (n + ((drainPending ⟨pr, pe, true⟩ ok).2 ++
            (handleCandidates (drainPending ⟨pr, pe, true⟩ ok).1 pice
              ok).2).count c)
        rw [List.count_append]
        simpa [Nat.add_assoc] using hc2

theorem iceInv_creatorPoll (c : String) (ps : List PartUpdate) :
    ∀ (s : PollIce) (n : Nat) (ok : String → Bool), IceInv c s n →
      IceInv c (creatorPoll s ps ok).1
        (n + (creatorPoll s ps ok).2.count c) := by
  induction ps with
  | nil => exact fun s n ok h => by simpa [creatorPoll] using h
  | cons p rest ih =>
    intro s n ok h
    have h1 := iceInv_creatorPart c s n p ok h
    have h2 := ih (creatorPart s p ok).1
      (n + (creatorPart s p ok).2.count c) ok h1
    simp only [creatorPoll]
    simpa [List.count_append, Nat.add_assoc] using h2

theorem iceInv_pollIceRun (c : String) (es : List PollEvent) :
    ∀ (s : PollIce) (n : Nat), IceInv c s n →
      IceInv c (pollIceRun s es).1 (n + (pollIceRun s es).2.count c) := by
  induction es with
  | nil => exact fun s n h => by simpa [pollIceRun] using h
  | cons e rest ih =>
    intro s n h
    have h1 : IceInv c (pollIceStep s e).1
        (n + (pollIceStep s e).2.count c) := by
      cases e with
      | creatorIter ps ok => exact iceInv_creatorPoll c ps s n ok h
      | participantIter ice ok => exact iceInv_handleCandidates c ice s n ok h
      | remoteDescSet => simpa [pollIceStep] using h
    have h2 := ih (pollIceStep s e).1 (n + (pollIceStep s e).2.count c) h1
    simp only [pollIceRun]
    simpa [List.count_append, Nat.add_assoc] using h2

/-- Claim C5 (corrected): (1) while no remote description is set, a poll
iteration applies no candidate and buffers every new candidate (marking it
processed); (2) in the creator role, the iteration that successfully applies
a first answer drains the buffer immediately: the applied sequence starts
with the buffered candidates in arrival order and the buffer is left empty;
(3) no candidate (keyed by its serialized value) is ever successfully
applied more than once across a whole run; but (4) in the participant role
there is no drain step at all — once the remote description is set the
buffer is never touched again, so candidates buffered by a participant
before the description existed are never applied (see the
counterexample). -/
theorem C5_ice_polling :
    (∀ (s : PollIce) (ice : List String) (ok : String → Bool),
      s.remoteDescSet = false →
        (handleCandidates s ice ok).2 = [] ∧
        (∃ t, (handleCandidates s ice ok).1.pending = s.pending ++ t) ∧
        (∀ x ∈ ice, x ∉ s.processed →
          x ∈ (handleCandidates s ice ok).1.pending)) ∧
    (∀ (s : PollIce) (ice : List String), s.remoteDescSet = false →
      (∃ rest, (creatorPart s ⟨some true, ice⟩ (fun _ => true)).2 =
        s.pending ++ rest) ∧
      (creatorPart s ⟨some true, ice⟩ (fun _ => true)).1.pending = [] ∧
      (creatorPart s ⟨some true, ice⟩ (fun _ => true)).1.remoteDescSet
        = true) ∧
    (∀ (es : List PollEvent) (c : String),
      (pollIceRun PollIce.init es).2.count c ≤ 1) ∧
    (∀ (s : PollIce) (ice : List String) (ok : String → Bool),
      s.remoteDescSet = true →
        (handleCandidates s ice ok).1.pending = s.pending) := by
  refine ⟨?_, ?_, ?_, ?_⟩
  · intro s ice ok h
    obtain ⟨ha, _, hc, hd⟩ := handleCandidates_noDesc ice s ok h
    exact ⟨ha, hc, hd⟩
  · intro s ice h
    obtain ⟨pr, pe, rd⟩ := s
    simp only at h
    subst h
    have hft : List.filter (fun _ => true) pe = pe := by
      induction pe with
      | nil => rfl
      | cons a t ih => simp [List.filter, ih]
    have e1 : creatorPart ⟨pr, pe, false⟩ ⟨some true, ice⟩
        (fun _ => true) =
        ((handleCandidates ⟨pe.foldl addOnce pr, [], true⟩ ice
          (fun _ => true)).1,
         pe ++ (handleCandidates ⟨pe.foldl addOnce pr, [], true⟩ ice
          (fun _ => true)).2) := by
      show ((handleCandidates
        ⟨(List.filter (fun _ => true) pe).foldl addOnce pr, [], true⟩ ice
          (fun _ => true)).1,
        List.filter (fun _ => true) pe ++ (handleCandidates
          ⟨(List.filter (fun _ => true) pe).foldl addOnce pr, [], true⟩ ice
          (fun _ => true)).2) = _
      rw [hft]
    obtain ⟨hp, hf⟩ := handleCandidates_descSet ice
      ⟨pe.foldl addOnce pr, [], true⟩ (fun _ => true) rfl
    refine ⟨⟨(handleCandidates ⟨pe.foldl addOnce pr, [], true⟩ ice
      (fun _ => true)).2, ?_⟩, ?_, ?_⟩
    · rw [e1]
    · rw [e1]
      exact hp
    · rw [e1]
      exact hf
  · intro es c
    have h0 : IceInv c PollIce.init 0 := by
      refine ⟨by simp [PollIce.init], ?_, ?_⟩
      · intro hm
        simp [PollIce.init] at hm
      · intro hn
        omega
    have := iceInv_pollIceRun c es PollIce.init 0 h0
    have h1 := this.1
    omega
  · intro s ice ok h
    exact (handleCandidates_descSet ice s ok h).1

/-- Witness for C5 at a concrete buffered state. -/
theorem C5_ice_polling_witness :
    (∃ rest, (creatorPart ⟨["c1"], ["c1"], false⟩ ⟨some true, []⟩
      (fun _ => true)).2 = ["c1"] ++ rest) ∧
    (creatorPart ⟨["c1"], ["c1"], false⟩ ⟨some true, []⟩
      (fun _ => true)).1.pending = [] := by
  have h := (C5_ice_polling.2.1 ⟨["c1"], ["c1"], false⟩ [] rfl)
  exact ⟨h.1, h.2.1⟩

/-- Counterexample for C5 as stated: in the participant role, candidate
`"c1"` arrives before the remote description and is buffered; the remote
description is then set (by the negotiation path, outside the loop) and two
further polls run — yet nothing is ever applied and `"c1"` stays parked in
the buffer, because the participant branch of `pollFunction` has no drain
step.  The claim says all buffered candidates are applied, in order,
immediately after the remote description is set. -/
theorem C5_counterexample :
    (pollIceRun PollIce.init
      [PollEvent.participantIter ["c1"] (fun _ => true),
       PollEvent.remoteDescSet,
       PollEvent.participantIter ["c1"] (fun _ => true),
       PollEvent.participantIter [] (fun _ => true)]).2 = [] ∧
    (pollIceRun PollIce.init
      [PollEvent.participantIter ["c1"] (fun _ => true),
       PollEvent.remoteDescSet,
       PollEvent.participantIter ["c1"] (fun _ => true),
       PollEvent.participantIter [] (fun _ => true)]).1.pending = ["c1"] ∧
    (pollIceRun PollIce.init
      [PollEvent.participantIter ["c1"] (fun _ => true),
       PollEvent.remoteDescSet,
       PollEvent.participantIter ["c1"] (fun _ => true),
       PollEvent.participantIter [] (fun _ => true)]).1.remoteDescSet
      = true := by
  refine ⟨?_, ?_, ?_⟩ <;> rfl

/-- Counterexample for C3 as stated: with an unacknowledged, unsent answer
for quiz `"qz"` still queued (under queue id `"gA"`), enqueuing a second
answer for the same quiz is refused with the no-op sentinel `""`: the state
is completely unchanged — the prior message is still queued and no message
with the new queue id `"gB"` exists.  The claim says the prior message is
removed and the new one queued. -/
theorem C3_counterexample :
    (MessageQueue.enqueue ceC3s1 ceAnswerQz 5 "gB" false false).1 = ceC3s1 ∧
    (MessageQueue.enqueue ceC3s1 ceAnswerQz 5 "gB" false false).2.2 = "" ∧
    mapGet ceC3s1.queue "gA" = some ⟨ceAnswerQz, 0, 5⟩ ∧
    mapGet (MessageQueue.enqueue ceC3s1 ceAnswerQz 5 "gB"
      false false).1.queue "gB" = none := by
  decide

set_option maxRecDepth 100000 in
/-- Counterexample for C2 as stated: in `ceC2state` the id `"m"` was just
acknowledged (an acknowledgment that overflowed the 100-entry cap and
evicted `"m"` itself from the acknowledged set); acknowledging `"m"` a
second time is not a no-op — it re-records `"m"`, changing the acknowledged
set. -/
theorem C2_counterexample :
    (MessageQueue.acknowledge ceC2state "m").acknowledgedMessages ≠
      ceC2state.acknowledgedMessages := by
  decide

set_option maxRecDepth 100000 in
/-- Counterexample for C10 as stated: in `ceC2state` the last operation was
a late acknowledgment of `"m"` (not in the queue, not pending) — yet a
subsequent enqueue of a payload carrying `messageId "m"` is happily queued
(under the fresh queue id `"g3"`), because the overflow eviction dropped
`"m"` from the acknowledged set.  The claim says such an enqueue returns
without queuing. -/
theorem C10_counterexample :
    mapGet ((MessageQueue.enqueue ceC2state ceQuizM 5 "g3"
      false false).1).queue "g3" = some ⟨ceQuizM, 0, 5⟩ := by
  decide

/-- Claim C1 (confirmed): the delivery engine gives answers single-shot
semantics.  Over every trace of queue operations from a fresh queue, at
most one answer for any given quiz id is ever transmitted; once a quiz is
in `completedQuizzes` no operation transmits an answer for it again; the
ack-timeout handler for a pending, unacknowledged answer marks its quiz
completed (giving up rather than retrying); and acknowledging a queued
answer marks its quiz completed as well. -/
theorem C1_answer_single_shot (q : String) :
    (∀ es : List MessageQueue.Event,
      MessageQueue.answerSends q
        (MessageQueue.run MessageQueue.State.init es).2 ≤ 1) ∧
    (∀ (s : MessageQueue.State) (e : MessageQueue.Event),
      q ∈ s.completedQuizzes →
      MessageQueue.answerSends q (MessageQueue.step s e).2 = 0) ∧
    (∀ (s : MessageQueue.State) (id : String) (msg : Msg),
      msg.mtype = MType.answer → msg.quizId = some q →
      id ∈ s.pendingMessages → id ∉ s.acknowledgedMessages →
      q ∈ (MessageQueue.ackTimeout s id msg).completedQuizzes) ∧
    (∀ (s : MessageQueue.State) (id : String) (m : QueuedMessage),
      mapGet s.queue (MessageQueue.resolveId s id) = some m →
      m.msg.mtype = MType.answer → m.msg.quizId = some q →
      q ∈ (MessageQueue.acknowledge s id).completedQuizzes) := by
  refine ⟨?_, ?_, ?_, ?_⟩
  · intro es
    obtain ⟨-, h2, -, -, -⟩ :=
      qinv_run q es MessageQueue.State.init 0 (qinv_init q)
    omega
  · intro s e h
    exact step_completed_no_send q s e h
  · intro s id msg hmt hqz hp hna
    obtain ⟨mt, mq, mid⟩ := msg
    dsimp only at hmt hqz
    subst hmt
    subst hqz
    unfold MessageQueue.ackTimeout
    rw [if_pos ⟨hp, hna⟩]
    dsimp only
    exact mem_addOnce_self _ q
  · intro s id m hm hmt hqz
    obtain ⟨⟨mt, mq, mid⟩, att, mx⟩ := m
    dsimp only at hmt hqz
    subst hmt
    subst hqz
    unfold MessageQueue.acknowledge
    dsimp only
    rw [hm]
    dsimp only
    exact mem_addOnce_self _ q

/-- Witness for C1: an answer for quiz `"qz"`, pending and unacknowledged
under id `"t"`, has its quiz marked completed by the ack-timeout handler. -/
theorem C1_answer_single_shot_witness :
    ceAnswerQz.mtype = MType.answer ∧ ceAnswerQz.quizId = some "qz" ∧
    "t" ∈ (⟨[], ["t"], [], [], [], []⟩ :
      MessageQueue.State).pendingMessages ∧
    "t" ∉ (⟨[], ["t"], [], [], [], []⟩ :
      MessageQueue.State).acknowledgedMessages ∧
    "qz" ∈ (MessageQueue.ackTimeout ⟨[], ["t"], [], [], [], []⟩ "t"
      ceAnswerQz).completedQuizzes :=
  ⟨rfl, rfl, by decide, by decide,
    (C1_answer_single_shot "qz").2.2.1 ⟨[], ["t"], [], [], [], []⟩ "t"
      ceAnswerQz rfl rfl (by decide) (by decide)⟩

/-- Claim C3 (corrected): per-quiz uniqueness of submitted answers holds —
over every trace from a fresh queue at most one queued answer per quiz id
exists, and an answer for a quiz already in `submittedAnswers` (or already
completed) is refused outright — but the refusal contradicts the spec's
"supersedes" wording: `enqueue` returns the untouched state with no
transmission and an empty id, retaining the earlier answer instead of
replacing it with the new one. -/
theorem C3_per_quiz_single_answer (q : String) :
    (∀ es : List MessageQueue.Event,
      MessageQueue.answersFor q
        (MessageQueue.run MessageQueue.State.init es).1 ≤ 1) ∧
    (∀ (s : MessageQueue.State) (m : Msg) (ma : Nat) (g : String)
      (c o : Bool), m.mtype = MType.answer → m.quizId = some q →
      (q ∈ s.submittedAnswers ∨ q ∈ s.completedQuizzes) →
      MessageQueue.enqueue s m ma g c o = (s, [], "")) := by
  refine ⟨?_, ?_⟩
  · intro es
    exact (qinv_run q es MessageQueue.State.init 0 (qinv_init q)).2.2.1
  · intro s m ma g c o hmt hqz hmem
    obtain ⟨mt, mq, mid⟩ := m
    dsimp only at hmt hqz
    subst hmt
    subst hqz
    unfold MessageQueue.enqueue
    dsimp only
    by_cases hc1 : q ∈ s.completedQuizzes
    · rw [if_pos hc1]
    · rw [if_neg hc1]
      rcases hmem with hmem | hmem
      · rw [if_pos hmem]
      · exact absurd hmem hc1

/-- Witness for C3: with `"qz"` already in `submittedAnswers`, enqueueing a
fresh answer for `"qz"` is refused and changes nothing. -/
theorem C3_per_quiz_single_answer_witness :
    MessageQueue.enqueue ⟨[], [], [], [], ["qz"], []⟩ ceAnswerQz 5 "g"
      true true = (⟨[], [], [], [], ["qz"], []⟩, [], "") :=
  (C3_per_quiz_single_answer "qz").2 ⟨[], [], [], [], ["qz"], []⟩
    ceAnswerQz 5 "g" true true rfl rfl (Or.inl (by decide))

/-- Claim C2 (corrected): `acknowledge(id)` does remove the resolved queue
entry and its pending mark, and no later retry sweep can ever transmit
under that queue id again; and acknowledging the same id a second time is
idempotent — but only while both recorded ids are still inside the
100-entry acknowledged set; once the overflow eviction has dropped them
the guard is gone (see the counterexample). -/
theorem C2_acknowledge_removes (s : MessageQueue.State) (id qid : String)
    (s1 : MessageQueue.State) (hqid : qid = MessageQueue.resolveId s id)
    (hs1 : s1 = MessageQueue.acknowledge s id) :
    mapGet s1.queue qid = none ∧
    qid ∉ s1.pendingMessages ∧
    (∀ (c : Bool) (ok : String → Bool),
      ∀ sd ∈ (MessageQueue.retrySweep s1 c ok).2, sd.1 ≠ qid) ∧
    (id ∈ s1.acknowledgedMessages → qid ∈ s1.acknowledgedMessages →
      s1.acknowledgedMessages.length ≤ 100 →
      (MessageQueue.acknowledge s1 id).queue = s1.queue ∧
      (MessageQueue.acknowledge s1 id).pendingMessages =
        s1.pendingMessages ∧
      (MessageQueue.acknowledge s1 id).acknowledgedMessages =
        s1.acknowledgedMessages) := by
  subst hs1
  subst hqid
  have hnone := (acknowledge_removes_resolved s id).1
  refine ⟨hnone, (acknowledge_removes_resolved s id).2, ?_, ?_⟩
  · intro c ok sd hsd heq
    have hmem := retrySweep_sends_key (MessageQueue.acknowledge s id) c ok
      sd hsd
    rw [heq] at hmem
    rw [mapGet_eq_none_iff] at hnone
    obtain ⟨e, he, hek⟩ := List.mem_map.mp hmem
    exact hnone e he hek
  · intro ha1 ha2 hlen
    have hres : MessageQueue.resolveId (MessageQueue.acknowledge s id) id =
        MessageQueue.resolveId s id := by
      unfold MessageQueue.resolveId
      rw [(acknowledge_facts s id).2.2]
    refine acknowledge_noop _ id ?_ ?_ ha1 ?_ hlen
    · rw [hres]
      exact (acknowledge_removes_resolved s id).1
    · rw [hres]
      exact (acknowledge_removes_resolved s id).2
    · rw [hres]
      exact ha2

/-- Witness for C2 at the fresh queue: acknowledging `"a"` leaves no queue
entry and no pending mark for `"a"`, and a second acknowledge within the
cap changes nothing. -/
theorem C2_acknowledge_removes_witness :
    mapGet (MessageQueue.acknowledge MessageQueue.State.init "a").queue "a"
      = none ∧
    (MessageQueue.acknowledge (MessageQueue.acknowledge
        MessageQueue.State.init "a") "a").acknowledgedMessages =
      (MessageQueue.acknowledge
        MessageQueue.State.init "a").acknowledgedMessages :=
  ⟨(C2_acknowledge_removes MessageQueue.State.init "a" "a" _ rfl rfl).1,
   ((C2_acknowledge_removes MessageQueue.State.init "a" "a" _ rfl
      rfl).2.2.2 (by decide) (by decide) (by decide)).2.2⟩

/-- Claim C10 (corrected): a late acknowledgement for ids not yet recorded
does record both the caller id and the resolved queue id (even after an
overflow eviction, since both are appended at the tail and the eviction
drops the 50 oldest); while an id stays in the acknowledged set, any
re-enqueue carrying it as `messageId` is refused with no transmission,
and `trySend` on it only purges the entry and reports success — but the
protection lapses once the eviction drops the id (see the
counterexample). -/
theorem C10_late_ack (s : MessageQueue.State) (id : String)
    (hid : id ∉ s.acknowledgedMessages)
    (hqid : MessageQueue.resolveId s id ∉ s.acknowledgedMessages) :
    id ∈ (MessageQueue.acknowledge s id).acknowledgedMessages ∧
    MessageQueue.resolveId s id ∈
      (MessageQueue.acknowledge s id).acknowledgedMessages ∧
    (∀ (t : MessageQueue.State) (m : Msg) (ma : Nat) (g : String)
      (c o : Bool), m.messageId = some id →
      id ∈ t.acknowledgedMessages →
      (MessageQueue.enqueue t m ma g c o).2.1 = [] ∧
      (MessageQueue.enqueue t m ma g c o).1.queue.Sublist t.queue) ∧
    (∀ (t : MessageQueue.State) (x : String) (c o : Bool),
      x ∈ t.acknowledgedMessages →
      MessageQueue.trySend t x c o =
        ({ t with queue := mapDel t.queue x }, [], true)) := by
  have hboth : id ∈
      (MessageQueue.acknowledge s id).acknowledgedMessages ∧
      MessageQueue.resolveId s id ∈
        (MessageQueue.acknowledge s id).acknowledgedMessages := by
    rw [acknowledge_acked_eq s id, addOnce_of_not_mem hid]
    by_cases hri : MessageQueue.resolveId s id = id
    · rw [hri, addOnce_of_mem
        (List.mem_append_right _ (List.mem_singleton_self id))]
      split
      · rename_i hgt
        have hlen : 50 ≤ s.acknowledgedMessages.length := by
          rw [List.length_append, List.length_singleton] at hgt
          omega
        constructor <;>
          exact mem_drop_append _ _ (List.mem_singleton_self id) hlen
      · constructor <;>
          exact List.mem_append_right _ (List.mem_singleton_self id)
    · have hnm : MessageQueue.resolveId s id ∉
          s.acknowledgedMessages ++ [id] := by
        intro hmem
        rcases List.mem_append.mp hmem with h | h
        · exact hqid h
        · exact hri (List.mem_singleton.mp h)
      rw [addOnce_of_not_mem hnm, List.append_assoc]
      split
      · rename_i hgt
        have hlen : 50 ≤ s.acknowledgedMessages.length := by
          simp only [List.length_append, List.length_singleton] at hgt
          omega
        constructor
        · exact mem_drop_append _ _
            (List.mem_append_left _ (List.mem_singleton_self id)) hlen
        · exact mem_drop_append _ _
            (List.mem_append_right _ (List.mem_singleton_self _)) hlen
      · constructor
        · exact List.mem_append_right _
            (List.mem_append_left _ (List.mem_singleton_self id))
        · exact List.mem_append_right _
            (List.mem_append_right _ (List.mem_singleton_self _))
  refine ⟨hboth.1, hboth.2, ?_, ?_⟩
  · intro t m ma g c o hmid hack
    exact enqueue_acked_refuses t m ma g c o id hmid hack
  · intro t x c o h
    exact trySend_acked t x c o h

/-- Witness for C10 at the fresh queue: acknowledging `"a"` records it. -/
theorem C10_late_ack_witness :
    "a" ∈ (MessageQueue.acknowledge
      MessageQueue.State.init "a").acknowledgedMessages :=
  (C10_late_ack MessageQueue.State.init "a" (by decide) (by decide)).1

end P2PQuiz
